import Mathlib

/-!
# drive: shader compiler tool and frame retention

A shallow embedding of `src/ShaderCompiler.cpp` (the build-time tool that turns
SPIR-V binaries into C++ headers), of `Renderer::DrawWithBuffers` /
`VulkanRenderer::Submit` (the frame retention list) and of the two
per-pipeline toggles of the `VulkanPipeline` constructor.

Conventions
* a C++ `char` holding binary data is a `Byte` (`Fin 256`);
* text and file names are `List Char`;
* `unsigned int` is 32 bits wide: the counter of the encoding loop is a `Nat`
  reduced modulo `UINT_RANGE` after each increment;
* a loop that may fail to terminate takes fuel and returns `none` when the
  fuel runs out.
-/

namespace drive

/-! ## ShaderCompiler.cpp: the hex encoding loop (lines 117-137) -/

/-- One `char` of binary data, seen through `static_cast<unsigned char>`. -/
abbrev Byte := Fin 256

/-- Number of values of an `unsigned int` (32 bits). -/
def UINT_RANGE : Nat := 4294967296

/-- The table `const char hexDigits[] = "0123456789ABCDEF"`. -/
def hexDigits : List Char :=
  ['0', '1', '2', '3', '4', '5', '6', '7', '8', '9', 'A', 'B', 'C', 'D', 'E', 'F']

/-- The constant `bytesPerRow`. -/
def bytesPerRow : Nat := 8

/-- Text of `std::format("0x{}{}", hexDigits[first], hexDigits[second])` for the
byte `c`, with `first = c >> 4` and `second = c & 15`. -/
def hexToken (c : Byte) : List Char :=
  ['0', 'x', hexDigits.getD (c.val / 16) '\x00', hexDigits.getD (c.val % 16) '\x00']

/-- Text written to `headerFile` by one pass through the body of the loop, at
counter value `i`. The body runs only with `i < spvLength`, so `spvLength - 1`
does not wrap; `i + 1` is computed in `unsigned int`. -/
def loopBody (spvBytes : List Byte) (i : Nat) : List Char :=
  let spvLength := spvBytes.length
  (if i % bytesPerRow = 0 then [' ', ' ', ' ', ' '] else []) ++
  hexToken (spvBytes.getD i 0) ++
  (if i < spvLength - 1 then [',', ' '] else []) ++
  (if (i + 1) % UINT_RANGE % bytesPerRow = 0 ∨ i = spvLength - 1 then ['\n'] else [])

/-- The loop `for (unsigned int i = 0; i < spvLength; i++)`, started at counter
value `i` with `out` already written. The counter wraps at `UINT_RANGE`;
`none` means the fuel ran out before the loop condition became false. -/
def hexLoop (spvBytes : List Byte) : Nat → Nat → List Char → Option (List Char)
  | 0, _, _ => none
  | fuel + 1, i, out =>
    if i < spvBytes.length then
      hexLoop spvBytes fuel ((i + 1) % UINT_RANGE) (out ++ loopBody spvBytes i)
    else
      some out

/-- The whole loop, from `i = 0` and an empty output. -/
def hexEncode (spvBytes : List Byte) (fuel : Nat) : Option (List Char) :=
  hexLoop spvBytes fuel 0 []

/-- Value of one hexadecimal digit, as a reader of the generated header takes it. -/
def hexValue (c : Char) : Option Nat :=
  match hexDigits.indexOf c with
  | 16 => none
  | k => some k

/-- Reader of an array initializer: skips blanks, commas and line ends and
takes every `0xHH` token as one number. `none` on any other text. -/
def decodeTokens : List Char → Option (List Nat)
  | [] => some []
  | ' ' :: rest => decodeTokens rest
  | ',' :: rest => decodeTokens rest
  | '\n' :: rest => decodeTokens rest
  | '0' :: 'x' :: h :: l :: rest =>
    match hexValue h, hexValue l, decodeTokens rest with
    | some hv, some lv, some bs => some ((16 * hv + lv) :: bs)
    | _, _, _ => none
  | _ => none

/-- Characters the encoding loop writes around the tokens. -/
def isSeparator (c : Char) : Bool := c = ' ' || c = ',' || c = '\n'

/-- Digit `k` of base 16 in upper case: `'0'..'9'` then `'A'..'F'`. -/
def upperHexDigit (k : Nat) : Char :=
  if k < 10 then Char.ofNat (48 + k) else Char.ofNat (55 + k)

/-- The token `0xHH` of a byte as the specification words it: `0x`, then the
high nibble, then the low nibble, both as upper-case hexadecimal digits. -/
def upperHexToken (c : Byte) : List Char :=
  ['0', 'x', upperHexDigit (c.val / 16), upperHexDigit (c.val % 16)]

/-! ### Row layout of the array body, as the specification words it -/

/-- Number of lines of the array body for `n` bytes: `ceil(n / 8)`. -/
def rowCount (n : Nat) : Nat := (n + 7) / 8

/-- Number of byte tokens on line `k` (lines counted from 0) for `n` bytes. -/
def rowLength (n k : Nat) : Nat := min 8 (n - 8 * k)

/-- A token with what follows it on its line: a comma and a blank, except
after the last token of the whole sequence. -/
def specToken (spvBytes : List Byte) (i : Nat) : List Char :=
  upperHexToken (spvBytes.getD i 0) ++ (if i + 1 = spvBytes.length then [] else [',', ' '])

/-- Line `k` of the array body as the specification words it: four blanks, the
tokens of bytes `8k, 8k+1, ...` of the line, and the line end. -/
def specRow (spvBytes : List Byte) (k : Nat) : List Char :=
  [' ', ' ', ' ', ' '] ++
    (List.range' (8 * k) (rowLength spvBytes.length k)).flatMap (specToken spvBytes) ++ ['\n']

/-- The array body as the specification words it: its lines, in order. -/
def specBody (spvBytes : List Byte) : List Char :=
  (List.range (rowCount spvBytes.length)).flatMap (specRow spvBytes)

/-! ## Renderer.h / VulkanRenderer.cpp: the frame retention list -/

/-- Identity of the `Buffer` a `std::shared_ptr<Buffer>` points to. -/
abbrev BufferRef := Nat

/-- The part of a renderer the retention discipline is about, with a simulated
GPU timeline. -/
structure Renderer where
  /-- Result of `GetCommandBuffer()`; `none` is `nullptr`. -/
  commandBuffer : Option Nat
  /-- The member `Renderer::m_frameBuffers`. -/
  m_frameBuffers : List BufferRef
  /-- The member `m_frameChunks` of `VulkanRenderer`, as buffer references. -/
  m_frameChunks : List BufferRef
  /-- Buffers referenced by the commands recorded so far in the current
  command buffer. -/
  recorded : List BufferRef
  /-- Command buffers handed to the graphics queue and not yet completed, each
  as the buffers it references. -/
  pending : List (List BufferRef)
deriving DecidableEq, Repr

/-- The method `Renderer::DrawWithBuffers`. `Bind` and `Draw` record commands
that reference the buffer they are called on. -/
def DrawWithBuffers (r : Renderer) (vertexBuffer indexBuffer : BufferRef) : Renderer :=
  match r.commandBuffer with
  | some _ =>
    { r with
      recorded := r.recorded ++ [vertexBuffer, indexBuffer, indexBuffer]
      m_frameBuffers := (r.m_frameBuffers ++ [vertexBuffer]) ++ [indexBuffer] }
  | none => r

/-- Modelled from the spec: `VulkanDevice::Submit` (VulkanDevice.cpp is not
among the sources) "hands the command buffer to the GPU queue": the recorded
commands become pending work. -/
def deviceSubmit (r : Renderer) : Renderer :=
  { r with pending := r.pending ++ [r.recorded], recorded := [] }

/-- Modelled from the spec: `VulkanDevice::WaitForGraphicsIdle` "blocks the
calling thread until the GPU queue has fully drained": no work is pending when
it returns. -/
def WaitForGraphicsIdle (r : Renderer) : Renderer :=
  { r with pending := [] }

/-- The statement `m_frameChunks.clear()` of `VulkanRenderer::Submit`. -/
def clearFrameChunks (r : Renderer) : Renderer :=
  { r with m_frameChunks := [] }

/-- The states `VulkanRenderer::Submit` goes through, one after each of its
three statements. -/
def SubmitStates (r : Renderer) : List Renderer :=
  [deviceSubmit r, WaitForGraphicsIdle (deviceSubmit r),
    clearFrameChunks (WaitForGraphicsIdle (deviceSubmit r))]

/-- The method `VulkanRenderer::Submit`. -/
def Submit (r : Renderer) : Renderer :=
  clearFrameChunks (WaitForGraphicsIdle (deviceSubmit r))

/-- A frame's draw calls, in order. -/
def drawAll (r : Renderer) (draws : List (BufferRef × BufferRef)) : Renderer :=
  draws.foldl (fun s d => DrawWithBuffers s d.1 d.2) r

/-- The states a frame goes through: after each draw call, in order. -/
def drawStates (r : Renderer) : List (BufferRef × BufferRef) → List Renderer
  | [] => []
  | d :: ds => DrawWithBuffers r d.1 d.2 :: drawStates (DrawWithBuffers r d.1 d.2) ds

/-! ## VulkanPipeline.h: the two per-pipeline toggles -/

/-- Vulkan's `VK_FALSE`. -/
def VK_FALSE : Nat := 0
/-- Vulkan's `VK_TRUE`. -/
def VK_TRUE : Nat := 1
/-- Vulkan's `VK_CULL_MODE_NONE`. -/
def VK_CULL_MODE_NONE : Nat := 0
/-- Vulkan's `VK_CULL_MODE_BACK_BIT`. -/
def VK_CULL_MODE_BACK_BIT : Nat := 2

/-- The fields of `VkPipelineRasterizationStateCreateInfo` set by the constructor
that are flags or enumerations. -/
structure RasterizationState where
  depthClampEnable : Nat
  rasterizerDiscardEnable : Nat
  cullMode : Nat
  depthBiasEnable : Nat
deriving DecidableEq, Repr

/-- The flags of `VkPipelineDepthStencilStateCreateInfo` set by the constructor. -/
structure DepthStencilState where
  depthTestEnable : Nat
  depthWriteEnable : Nat
  depthBoundsTestEnable : Nat
  stencilTestEnable : Nat
deriving DecidableEq, Repr

/-- The `rasterizationState` built by the `VulkanPipeline` constructor. -/
def rasterizationState (enableCulling : Bool) : RasterizationState :=
  { depthClampEnable := VK_FALSE
    rasterizerDiscardEnable := VK_FALSE
    cullMode := if enableCulling then VK_CULL_MODE_BACK_BIT else VK_CULL_MODE_NONE
    depthBiasEnable := VK_FALSE }

/-- The `depthStencilState` built by the `VulkanPipeline` constructor. -/
def depthStencilState (enableDepth : Bool) : DepthStencilState :=
  { depthTestEnable := if enableDepth then VK_TRUE else VK_FALSE
    depthWriteEnable := if enableDepth then VK_TRUE else VK_FALSE
    depthBoundsTestEnable := VK_FALSE
    stencilTestEnable := VK_FALSE }

/-! ## ShaderCompiler.cpp: file selection and names -/

/-- What `.` of an ECMAScript regular expression matches: any character but a
line terminator. -/
def regexDot (c : Char) : Bool := c != '\n' && c != '\r'

/-- The tail `\.(frag|vert)` of the pattern, matched up to the end of the name. -/
def matchExtension (s : List Char) : Bool :=
  s == ['.', 'f', 'r', 'a', 'g'] || s == ['.', 'v', 'e', 'r', 't']

/-- The call `std::regex_match(filename, regex)` for the pattern
`.*\.(frag|vert)`: the whole name is some characters matched by `.` followed by
`.frag` or `.vert`. -/
def regex_match : List Char → Bool
  | [] => matchExtension []
  | c :: cs => matchExtension (c :: cs) || (regexDot c && regex_match cs)

/-- The call `std::string::find(".")`: position of the first `.`, `none` for
`npos`. -/
def find : List Char → Option Nat
  | [] => none
  | c :: cs => if c = '.' then some 0 else (find cs).map (· + 1)

/-- The call `codeName.replace(pos, 1, "_")`; `none` when it throws
`std::out_of_range`, which it does for `npos`. -/
def replace (codeName : List Char) (pos : Option Nat) : Option (List Char) :=
  match pos with
  | none => none
  | some p =>
    if p > codeName.length then none
    else some (codeName.take p ++ ['_'] ++ codeName.drop (p + 1))

/-- The value of `codeName` after line 97, for the shader file name `name`. -/
def codeName (name : List Char) : Option (List Char) :=
  replace name (find name)

/-- Name of the byte array in the generated header: `codeName << "_spv[] = {"`. -/
def arrayName (codeName : List Char) : List Char := codeName ++ ['_', 's', 'p', 'v']

/-- Name of the length constant in the generated header:
`codeName << "_spv_len = "`. -/
def lengthName (codeName : List Char) : List Char :=
  codeName ++ ['_', 's', 'p', 'v', '_', 'l', 'e', 'n']

/-- A name with its first `.` replaced by `_`, as the specification words it. -/
def replaceFirstDot : List Char → List Char
  | [] => []
  | c :: cs => if c = '.' then '_' :: cs else c :: replaceFirstDot cs

/-! ## ShaderCompiler.cpp: main, over a model of the file system -/

/-- Content of the output directory: the bytes of each file, by file name. -/
abbrev Dir := List Char → Option (List Byte)

/-- A directory with no file. -/
def emptyDir : Dir := fun _ => none

/-- Creating or overwriting a file. -/
def writeFile (d : Dir) (name : List Char) (data : List Byte) : Dir :=
  fun n => if n = name then some data else d n

/-- Writing through a stream opened with `std::ios::app`: the data goes after
what the file holds; a missing file is created. -/
def appendFile (d : Dir) (name : List Char) (data : List Byte) : Dir :=
  writeFile d name ((d name).getD [] ++ data)

/-- Bytes of a text as the stream writes them. -/
def toBytes (text : List Char) : List Byte :=
  text.map (fun c => Fin.ofNat c.toNat)

/-- One entry met by `std::filesystem::recursive_directory_iterator(srcDir)`. -/
structure DirEntry where
  path : List Char
  isRegularFile : Bool
deriving DecidableEq, Repr

/-- Everything outside the program that a run of the tool depends on. -/
structure Env where
  /-- The argument count `argc`. -/
  argc : Int
  /-- The argument `argv[1]`. -/
  srcDir : List Char
  /-- The argument `argv[2]`. -/
  outDir : List Char
  /-- Whether `std::filesystem::remove_all(outDir)` throws. -/
  removeAllThrows : Bool
  /-- Whether `std::filesystem::create_directory(outDir)` throws. -/
  createDirectoryThrows : Bool
  /-- The entries the recursive scan of `srcDir` returns, in scan order;
  `none` when the scan throws. -/
  scan : Option (List DirEntry)
  /-- The text of `now` under the format `%Y-%m-%d %H:%M:%OS`. -/
  now : List Char
  /-- The call `system(command)`: the status it returns and, when the command
  wrote its `-o` file, the bytes of that file. -/
  system : List Char → Int × Option (List Byte)
  /-- Whether a `std::ofstream` on the file of this name in `outDir` opens. A
  stream that did not open drops what is written to it. -/
  ofstreamOpens : List Char → Bool
  /-- Whether `std::filesystem::file_size` throws for the file of this name in
  `outDir` (line 105). -/
  fileSizeThrows : List Char → Bool
  /-- Whether `std::vector<char>(spvLength)` throws (`std::bad_alloc`,
  `std::length_error`) for the file of this name and this length (line 106). -/
  allocationThrows : List Char → Nat → Bool

/-- The call `path.filename().string()`: what follows the last `/`. -/
def filename (path : List Char) : List Char :=
  (path.reverse.takeWhile (fun c => c != '/')).reverse

/-- The call `std::filesystem::path(dir).append(name)`, as a string. -/
def pathAppend (dir name : List Char) : List Char :=
  if dir = [] ∨ dir.getLast? = some '/' then dir ++ name else dir ++ '/' :: name

/-- The selection loop of lines 43-59: the paths of the regular files whose
file name matches the pattern, in scan order. -/
def shaderFiles (entries : List DirEntry) : List (List Char) :=
  (entries.filter (fun e => e.isRegularFile && regex_match (filename e.path))).map
    (fun e => e.path)

/-- The banner `fileStart`. -/
def fileStart (now : List Char) : List Char :=
  "// Generated by ShaderCompiler\n".toList ++ "// ".toList ++ now ++ "\n".toList ++
    "\n".toList ++ "#pragma once\n".toList

/-- The constant `namespaceStart`. -/
def namespaceStart : List Char := "namespace drive\n\x7b".toList

/-- The constant `namespaceEnd`. -/
def namespaceEnd : List Char := "\x7d; // namespace drive".toList

/-- Everything written to `headerFile` for one shader (lines 111-141), given
the text `body` the encoding loop wrote. -/
def headerText (shaderName now codeName : List Char) (spvLength : Nat)
    (body : List Char) : List Char :=
  "// Shader: ".toList ++ shaderName ++ "\n".toList ++
  fileStart now ++ "\n".toList ++
  namespaceStart ++ "\n".toList ++
  "constexpr static unsigned char ".toList ++ arrayName codeName ++ "[] = \x7b".toList ++
    "\n".toList ++
  body ++
  "\x7d;".toList ++ "\n".toList ++
  "constexpr static unsigned int ".toList ++ lengthName codeName ++ " = ".toList ++
    Nat.toDigits 10 spvLength ++ ";".toList ++ "\n".toList ++
  namespaceEnd ++ "\n".toList

/-- The command line given to `system` for the shader file `f`. -/
def glslc (env : Env) (f : List Char) : List Char :=
  "glslc ".toList ++ f ++ " -o ".toList ++
    (pathAppend env.outDir (filename f) ++ ".spv".toList) ++ " -I ".toList ++ env.srcDir

/-- The line added to `Shaders.h` for the shader file `f` (line 146). -/
def includeLine (env : Env) (f : List Char) : List Char :=
  "#include ".toList ++ "\"".toList ++
    filename (pathAppend env.outDir (filename f) ++ ".spv.h".toList) ++ "\"".toList ++
    "\n".toList

/-- File name of the aggregated include file. -/
def metaName : List Char := "Shaders.h".toList

/-- How one pass through the loop over `shaderFiles` ends. -/
inductive Step where
  /-- The pass reached the end of the loop body. -/
  | next (d : Dir)
  /-- The pass ended the run with `return -1`, by itself or through the
  exception handler. -/
  | fail (d : Dir)
  /-- The encoding loop never ends. -/
  | hang

/-- The output directory after `system(glslc.c_str())` for the shader file `f`
(line 88): the command's `-o` file is `<shaderName>.spv` in `outDir`. -/
def spvWritten (env : Env) (f : List Char) (d : Dir) : Dir :=
  match (env.system (glslc env f)).2 with
  | some bytes => writeFile d (filename f ++ ".spv".toList) bytes
  | none => d

/-- The output directory after the writes to `headerFile` (lines 110-141), a
stream on `<shaderName>.spv.h` opened with `std::ios::app`. -/
def headerWritten (env : Env) (f codeName : List Char) (spvBytes : List Byte)
    (body : List Char) (d : Dir) : Dir :=
  if env.ofstreamOpens (filename f ++ ".spv.h".toList) then
    appendFile d (filename f ++ ".spv.h".toList)
      (toBytes (headerText (filename f) env.now codeName spvBytes.length body))
  else d

/-- The output directory after the write to `metaFile` (line 146), a stream on
`Shaders.h` opened with `std::ios::app`; `metaOpen` tells whether it opened. -/
def includeWritten (env : Env) (metaOpen : Bool) (f : List Char) (d : Dir) : Dir :=
  if metaOpen then appendFile d metaName (toBytes (includeLine env f)) else d

/-- One pass through the loop body of lines 76-147 for the shader file `f`,
from the output directory content `d`. An exception thrown in the body
(`replace` at line 97, `file_size` at line 105, the allocation of `spvBytes` at
line 106) reaches the handler of lines 151-156, which returns -1. The encoding
loop gets `spvLength + 1` units of fuel, which is all it can use
(`hexEncode_fuel`). -/
def compileShader (env : Env) (metaOpen : Bool) (f : List Char) (d : Dir) : Step :=
  if (env.system (glslc env f)).1 ≠ 0 then Step.fail (spvWritten env f d)
  else match codeName (filename f) with
    | none => Step.fail (spvWritten env f d)
    | some name =>
      match spvWritten env f d (filename f ++ ".spv".toList) with
      | none => Step.fail (spvWritten env f d)
      | some spvBytes =>
        if env.fileSizeThrows (filename f ++ ".spv".toList) = true ∨
            env.allocationThrows (filename f ++ ".spv".toList) spvBytes.length = true then
          Step.fail (spvWritten env f d)
        else
          match hexEncode spvBytes (spvBytes.length + 1) with
          | none => Step.hang
          | some body =>
            Step.next
              (includeWritten env metaOpen f
                (headerWritten env f name spvBytes body (spvWritten env f d)))

/-- The loop `for (auto f : shaderFiles)`. -/
def compileAll (env : Env) (metaOpen : Bool) : List (List Char) → Dir → Step
  | [], d => Step.next d
  | f :: fs, d =>
    match compileShader env metaOpen f d with
    | Step.next d1 => compileAll env metaOpen fs d1
    | Step.fail d1 => Step.fail d1
    | Step.hang => Step.hang

/-- What a run that ends leaves: the value `main` returns and the output
directory (`none` when it does not exist). -/
structure Result where
  exitCode : Int
  outDir : Option Dir

/-- The freshly created output directory after lines 72-74: `metaFile`, a
stream on `Shaders.h` opened with `std::ios::app`, gets the banner and a line
end. -/
def metaStarted (env : Env) : Dir :=
  if env.ofstreamOpens metaName then
    appendFile emptyDir metaName (toBytes (fileStart env.now ++ "\n".toList))
  else emptyDir

/-- Lines 39-158 of `main`: the run from the freshly created output
directory on. `none` when the run never ends. -/
def generate (env : Env) : Option Result :=
  match env.scan with
  | none => some ⟨-1, some emptyDir⟩
  | some entries =>
    match compileAll env (env.ofstreamOpens metaName) (shaderFiles entries)
        (metaStarted env) with
    | Step.next d => some ⟨0, some d⟩
    | Step.fail d => some ⟨-1, some d⟩
    | Step.hang => none

/-- The function `main`, run with `prior` as the output directory (`none` when
it does not exist). A throwing `remove_all` is taken to leave the directory as
it was. `none` when the run never ends. -/
def main (env : Env) (prior : Option Dir) : Option Result :=
  if env.argc ≠ 3 then some ⟨-1, prior⟩
  else if prior.isSome ∧ env.removeAllThrows = true then some ⟨-1, prior⟩
  else if env.createDirectoryThrows = true then some ⟨-1, none⟩
  else generate env

/-- A run on a source directory holding exactly `a.vert` and `a.frag`, met in
that order, with a compiler that writes three bytes for the first and one for
the second. -/
def exampleEnv : Env :=
  { argc := 3
    srcDir := "shaders".toList
    outDir := "out".toList
    removeAllThrows := false
    createDirectoryThrows := false
    scan := some [⟨"shaders/a.vert".toList, true⟩, ⟨"shaders/a.frag".toList, true⟩]
    now := "2024-01-01 00:00:00".toList
    system := fun cmd =>
      if cmd = "glslc shaders/a.vert -o out/a.vert.spv -I shaders".toList then
        (0, some [1, 2, 3])
      else (0, some [255])
    ofstreamOpens := fun _ => true
    fileSizeThrows := fun _ => false
    allocationThrows := fun _ _ => false }

/-- The names the specification gives to what a run leaves in the output
directory for the shader files `files`: `Shaders.h` and, for each file,
`<name>.spv` and `<name>.spv.h`. -/
def IsArtifact (files : List (List Char)) (n : List Char) : Prop :=
  n = metaName ∨
    ∃ f ∈ files, n = filename f ++ ".spv".toList ∨ n = filename f ++ ".spv.h".toList

/-- Every file whose name ends in `v` is shorter than `UINT_RANGE`. -/
def SmallSpv (d : Dir) : Prop :=
  ∀ n bytes, d n = some bytes → n.getLast? = some 'v' → bytes.length < UINT_RANGE

/-- The run of `exampleEnv` in an output directory where no stream opens for
writing. -/
def unwritableEnv : Env := { exampleEnv with ofstreamOpens := fun _ => false }

/-- A run on `a.vert` and `a.frag` where the compiler writes 2^32 bytes for
every shader and returns a non-zero status for `a.frag`; the buffer for the
bytes can be allocated. -/
def hugeEnv : Env :=
  { exampleEnv with
    system := fun cmd =>
      (if cmd = "glslc shaders/a.vert -o out/a.vert.spv -I shaders".toList then 0 else 1,
        some (List.replicate 4294967296 0)) }

/-! ## ShaderCompiler.cpp: the parts of a generated header -/

/-- Lines 111-113: the shader comment, the banner with the time of the run and
the opening of the namespace. -/
def headerIntro (shaderName now : List Char) : List Char :=
  "// Shader: ".toList ++ shaderName ++ "\n".toList ++
  fileStart now ++ "\n".toList ++
  namespaceStart ++ "\n".toList

/-- Lines 114-138: the byte-array definition around the text `body` of the
encoding loop. -/
def arrayText (codeName body : List Char) : List Char :=
  "constexpr static unsigned char ".toList ++ arrayName codeName ++ "[] = \x7b".toList ++
    "\n".toList ++
  body ++
  "\x7d;".toList ++ "\n".toList

/-- Lines 139-140: the length constant, with `std::format("{}", spvLength)` as
the decimal digits of `spvLength`. -/
def lengthText (codeName : List Char) (spvLength : Nat) : List Char :=
  "constexpr static unsigned int ".toList ++ lengthName codeName ++ " = ".toList ++
    Nat.toDigits 10 spvLength ++ ";".toList ++ "\n".toList

/-- Line 141: the closing of the namespace. -/
def headerOutro : List Char := namespaceEnd ++ "\n".toList

/-- Everything one pass of the loop writes to `headerFile` for the shader file
name `shaderName` and the bytes `spvBytes` read from its SPV file, in a run
made at time `now`; `none` when `replace` throws or the encoding loop never
ends. -/
def headerBlock (shaderName now : List Char) (spvBytes : List Byte) : Option (List Char) :=
  match codeName shaderName with
  | none => none
  | some name =>
    match hexEncode spvBytes (spvBytes.length + 1) with
    | none => none
    | some body => some (headerText shaderName now name spvBytes.length body)

/-- The byte-array definition and the length constant of a generated header, as
a function of the shader file name and the SPV bytes alone. -/
def arrayAndLength (shaderName : List Char) (spvBytes : List Byte) : Option (List Char) :=
  match codeName shaderName with
  | none => none
  | some name =>
    match hexEncode spvBytes (spvBytes.length + 1) with
    | none => none
    | some body => some (arrayText name body ++ lengthText name spvBytes.length)

/-- Value of a decimal digit. -/
def digitValue (c : Char) : Option Nat :=
  if '0' ≤ c ∧ c ≤ '9' then some (c.toNat - 48) else none

/-- Reading decimal digits from the left, `acc` being the value read so far. -/
def readDecimalFrom (acc : Nat) : List Char → Option Nat
  | [] => some acc
  | c :: cs =>
    match digitValue c with
    | some d => readDecimalFrom (10 * acc + d) cs
    | none => none

/-- The value of an unsigned decimal literal, as a reader of the generated
header takes it; `none` for an empty text or one with another character. -/
def readDecimal (s : List Char) : Option Nat :=
  match s with
  | [] => none
  | c :: cs => readDecimalFrom 0 (c :: cs)

/-- The run of `exampleEnv` made one second later. -/
def laterEnv : Env := { exampleEnv with now := "2024-01-01 00:00:01".toList }

/-- A run on a source directory with two files named `x.vert`, in the
subdirectories `a` and `b`, met in that order; the compiler writes three bytes
for the first and one for the second. -/
def duplicateEnv : Env :=
  { argc := 3
    srcDir := "shaders".toList
    outDir := "out".toList
    removeAllThrows := false
    createDirectoryThrows := false
    scan := some [⟨"shaders/a/x.vert".toList, true⟩, ⟨"shaders/b/x.vert".toList, true⟩]
    now := "2024-01-01 00:00:00".toList
    system := fun cmd =>
      if cmd = "glslc shaders/a/x.vert -o out/x.vert.spv -I shaders".toList then
        (0, some [1, 2, 3])
      else (0, some [255])
    ofstreamOpens := fun _ => true
    fileSizeThrows := fun _ => false
    allocationThrows := fun _ _ => false }

/-- The file `name` of the output directory after a run, `none` when the run
does not end or leaves no such file. -/
def fileAfter (env : Env) (prior : Option Dir) (name : List Char) : Option (List Byte) :=
  (main env prior).bind (fun r => r.outDir.bind (fun d => d name))

/-- Number of places of `text` at which `pat` starts. -/
def occurrences (pat : List Byte) : List Byte → Nat
  | [] => 0
  | c :: cs => (if pat.isPrefixOf (c :: cs) then 1 else 0) + occurrences pat cs

/-! ## Theorems -/

/-! ### The hex encoding loop -/

theorem hexValue_hexDigits (k : Fin 16) :
    hexValue (hexDigits.getD k.val '\x00') = some k.val := by
  revert k; decide

theorem hexDigits_upper (k : Fin 16) :
    hexDigits.getD k.val '\x00' = upperHexDigit k.val ∧
      isSeparator (hexDigits.getD k.val '\x00') = false := by
  revert k; decide

theorem hexToken_eq_upper (c : Byte) : hexToken c = upperHexToken c := by
  unfold hexToken upperHexToken
  rw [(hexDigits_upper ⟨c.val / 16, by omega⟩).1, (hexDigits_upper ⟨c.val % 16, by omega⟩).1]

theorem decodeTokens_hexToken (c : Byte) (rest : List Char) :
    decodeTokens (hexToken c ++ rest) = (decodeTokens rest).map (fun bs => c.val :: bs) := by
  have hc : 16 * (c.val / 16) + c.val % 16 = c.val := by omega
  have hi : hexValue (hexDigits.getD (c.val / 16) '\x00') = some (c.val / 16) :=
    hexValue_hexDigits ⟨c.val / 16, by omega⟩
  have lo : hexValue (hexDigits.getD (c.val % 16) '\x00') = some (c.val % 16) :=
    hexValue_hexDigits ⟨c.val % 16, by omega⟩
  show decodeTokens ('0' :: 'x' :: hexDigits.getD (c.val / 16) '\x00'
    :: hexDigits.getD (c.val % 16) '\x00' :: rest) = _
  rw [decodeTokens, hi, lo]
  cases decodeTokens rest with
  | none => rfl
  | some bs => simp only [Option.map_some', hc]

theorem decodeTokens_loopBody (spvBytes : List Byte) (i : Nat) (rest : List Char) :
    decodeTokens (loopBody spvBytes i ++ rest)
      = (decodeTokens rest).map (fun bs => (spvBytes.getD i 0).val :: bs) := by
  have h1 : ∀ r, decodeTokens (' ' :: ' ' :: ' ' :: ' ' :: r) = decodeTokens r := by
    intro r; simp only [decodeTokens]
  have h2 : ∀ r, decodeTokens (',' :: ' ' :: r) = decodeTokens r := by
    intro r; simp only [decodeTokens]
  have h3 : ∀ r, decodeTokens ('\n' :: r) = decodeTokens r := by
    intro r; simp only [decodeTokens]
  unfold loopBody
  simp only [List.append_assoc]
  split_ifs <;>
    simp only [List.cons_append, List.nil_append, h1, h2, h3, decodeTokens_hexToken]

theorem decodeTokens_flatMap (spvBytes : List Byte) (is : List Nat) :
    decodeTokens (is.flatMap (loopBody spvBytes))
      = some (is.map (fun i => (spvBytes.getD i 0).val)) := by
  induction is with
  | nil => rfl
  | cons i is ih =>
    rw [List.flatMap_cons, decodeTokens_loopBody, ih]
    rfl

theorem filter_hexToken (c : Byte) :
    (hexToken c).filter (fun ch => !isSeparator ch) = hexToken c := by
  have h1 : isSeparator (hexDigits.getD (c.val / 16) '\x00') = false :=
    (hexDigits_upper ⟨c.val / 16, by omega⟩).2
  have h2 : isSeparator (hexDigits.getD (c.val % 16) '\x00') = false :=
    (hexDigits_upper ⟨c.val % 16, by omega⟩).2
  have h0 : isSeparator '0' = false := by decide
  have hx : isSeparator 'x' = false := by decide
  simp only [hexToken, List.filter_cons, List.filter_nil, h0, hx, h1, h2, Bool.not_false,
    if_true]

theorem filter_loopBody (spvBytes : List Byte) (i : Nat) :
    (loopBody spvBytes i).filter (fun ch => !isSeparator ch) = hexToken (spvBytes.getD i 0) := by
  have hs : isSeparator ' ' = true := by decide
  have hc : isSeparator ',' = true := by decide
  have hn : isSeparator '\n' = true := by decide
  unfold loopBody
  simp only [List.filter_append, filter_hexToken]
  split_ifs <;>
    simp only [List.filter_cons, List.filter_nil, hs, hc, hn, Bool.not_true, List.append_nil,
      List.nil_append, Bool.false_eq_true, if_false]

theorem filter_flatMap_loopBody (spvBytes : List Byte) (is : List Nat) :
    (is.flatMap (loopBody spvBytes)).filter (fun ch => !isSeparator ch)
      = (is.map (fun i => spvBytes.getD i 0)).flatMap hexToken := by
  induction is with
  | nil => rfl
  | cons i is ih =>
    rw [List.flatMap_cons, List.filter_append, filter_loopBody, ih, List.map_cons,
      List.flatMap_cons]

theorem map_getD_range (spvBytes : List Byte) :
    (List.range' 0 spvBytes.length).map (fun i => spvBytes.getD i 0) = spvBytes := by
  apply List.ext_getElem
  · simp
  · intro k h1 h2
    simp [List.getElem?_eq_getElem h2]

/-- With a length below `UINT_RANGE` the counter never wraps: the loop started
at `i` appends the bodies of `i, i+1, ..., spvLength-1` and stops. -/
theorem hexLoop_eq (spvBytes : List Byte) (hlen : spvBytes.length < UINT_RANGE) :
    ∀ (fuel i : Nat) (out : List Char), i ≤ spvBytes.length → spvBytes.length - i < fuel →
      hexLoop spvBytes fuel i out
        = some (out ++ (List.range' i (spvBytes.length - i)).flatMap (loopBody spvBytes)) := by
  intro fuel
  induction fuel with
  | zero => intro i out _ h; omega
  | succ fuel ih =>
    intro i out hi hf
    rw [hexLoop]
    by_cases h : i < spvBytes.length
    · rw [if_pos h]
      have hw : (i + 1) % UINT_RANGE = i + 1 := Nat.mod_eq_of_lt (by omega)
      rw [hw, ih (i + 1) _ (by omega) (by omega)]
      have hs : spvBytes.length - i = (spvBytes.length - (i + 1)) + 1 := by omega
      rw [hs, List.range'_succ, List.flatMap_cons, List.append_assoc]
    · rw [if_neg h]
      have hz : spvBytes.length - i = 0 := by omega
      rw [hz]
      simp

/-- With a length of `UINT_RANGE` or more the counter wraps to 0 before it
reaches `spvLength`: the loop condition stays true for ever. -/
theorem hexLoop_wraps (spvBytes : List Byte) (hlen : UINT_RANGE ≤ spvBytes.length) :
    ∀ (fuel i : Nat) (out : List Char), i < UINT_RANGE → hexLoop spvBytes fuel i out = none := by
  intro fuel
  induction fuel with
  | zero => intro i out _; rfl
  | succ fuel ih =>
    intro i out hi
    rw [hexLoop, if_pos (by omega)]
    exact ih _ _ (Nat.mod_lt _ (by decide))

theorem hexEncode_eq (spvBytes : List Byte) (fuel : Nat)
    (hlen : spvBytes.length < UINT_RANGE) (hfuel : spvBytes.length < fuel) :
    hexEncode spvBytes fuel
      = some ((List.range' 0 spvBytes.length).flatMap (loopBody spvBytes)) := by
  unfold hexEncode
  rw [hexLoop_eq spvBytes hlen fuel 0 [] (Nat.zero_le _) (by omega)]
  simp

/-- C1, as stated, fails: for an SPV file of 4294967296 bytes the 32-bit loop
counter wraps to 0 before reaching `spvLength`, so the loop never ends and no
finished token sequence exists to read back, whatever the fuel. -/
theorem hexEncode_diverges_at_uint_range :
    ¬ ∃ (fuel : Nat) (out : List Char),
        hexEncode (List.replicate 4294967296 (0 : Byte)) fuel = some out ∧
          decodeTokens out = some ((List.replicate 4294967296 (0 : Byte)).map Fin.val) := by
  rintro ⟨fuel, out, h, _⟩
  have hnone : hexEncode (List.replicate 4294967296 (0 : Byte)) fuel = none := by
    refine hexLoop_wraps _ ?_ fuel 0 [] (by decide)
    rw [List.length_replicate]
    exact Nat.le_refl _
  rw [hnone] at h
  exact Option.noConfusion h

/-- C1, amended: for every byte sequence shorter than 2^32 bytes the loop
terminates; its output, separators removed, is the sequence of tokens `0x`
followed by the two upper-case hexadecimal digits of each byte (high nibble
first), in order; and reading the tokens back as hexadecimal numbers gives the
original bytes, same length and order. -/
theorem hexEncode_roundtrip (spvBytes : List Byte) (fuel : Nat)
    (hlen : spvBytes.length < UINT_RANGE) (hfuel : spvBytes.length < fuel) :
    ∃ out, hexEncode spvBytes fuel = some out ∧
      out.filter (fun ch => !isSeparator ch) = spvBytes.flatMap upperHexToken ∧
      decodeTokens out = some (spvBytes.map Fin.val) := by
  refine ⟨_, hexEncode_eq spvBytes fuel hlen hfuel, ?_, ?_⟩
  · rw [filter_flatMap_loopBody, map_getD_range]
    congr 1
    funext c
    exact hexToken_eq_upper c
  · rw [decodeTokens_flatMap, ← map_getD_range spvBytes, List.map_map, map_getD_range]
    rfl

/-- Witness of `hexEncode_roundtrip` on the three bytes `1F AB 03`. -/
theorem hexEncode_roundtrip_witness :
    ∃ out, hexEncode [0x1F, 0xAB, 0x03] 4 = some out ∧
      out.filter (fun ch => !isSeparator ch)
        = ([0x1F, 0xAB, 0x03] : List Byte).flatMap upperHexToken ∧
      decodeTokens out = some (([0x1F, 0xAB, 0x03] : List Byte).map Fin.val) :=
  hexEncode_roundtrip [0x1F, 0xAB, 0x03] 4 (by decide) (by decide)

/-! ### Row layout -/

theorem loopBody_eq (spvBytes : List Byte) (i : Nat)
    (hlen : spvBytes.length < UINT_RANGE) (hi : i < spvBytes.length) :
    loopBody spvBytes i
      = (if i % 8 = 0 then [' ', ' ', ' ', ' '] else []) ++ specToken spvBytes i ++
        (if (i + 1) % 8 = 0 ∨ i + 1 = spvBytes.length then ['\n'] else []) := by
  have hw : (i + 1) % UINT_RANGE = i + 1 := Nat.mod_eq_of_lt (by omega)
  have h1 : (i < spvBytes.length - 1) = ¬ (i + 1 = spvBytes.length) := by
    apply propext; omega
  have h2 : (i = spvBytes.length - 1) = (i + 1 = spvBytes.length) := by
    apply propext; omega
  unfold loopBody specToken
  simp only [hw, h1, h2, bytesPerRow, hexToken_eq_upper, ite_not, List.append_assoc]

theorem flatMap_loopBody_inner (spvBytes : List Byte) (hlen : spvBytes.length < UINT_RANGE) :
    ∀ (u a : Nat), (∀ i, a ≤ i → i < a + u →
        i % 8 ≠ 0 ∧ i < spvBytes.length ∧ (i + 1) % 8 ≠ 0 ∧ i + 1 ≠ spvBytes.length) →
      (List.range' a u).flatMap (loopBody spvBytes)
        = (List.range' a u).flatMap (specToken spvBytes) := by
  intro u
  induction u with
  | zero => intro a _; rfl
  | succ u ih =>
    intro a h
    obtain ⟨h1, h2, h3, h4⟩ := h a (Nat.le_refl _) (by omega)
    rw [List.range'_succ, List.flatMap_cons, List.flatMap_cons,
      ih (a + 1) (fun i hi1 hi2 => h i (by omega) (by omega)),
      loopBody_eq spvBytes a hlen h2, if_neg h1, if_neg (by omega)]
    simp

theorem flatMap_loopBody_row (spvBytes : List Byte) (hlen : spvBytes.length < UINT_RANGE)
    (k : Nat) (hk : k < rowCount spvBytes.length) :
    (List.range' (8 * k) (rowLength spvBytes.length k)).flatMap (loopBody spvBytes)
      = specRow spvBytes k := by
  unfold rowCount at hk
  unfold specRow
  generalize ht : rowLength spvBytes.length k = t
  unfold rowLength at ht
  have ht1 : 1 ≤ t := by omega
  have ht8 : t ≤ 8 := by omega
  have hend : t = 8 ∨ 8 * k + t = spvBytes.length := by omega
  have hin : 8 * k + t ≤ spvBytes.length := by omega
  obtain ⟨u, rfl⟩ : ∃ u, t = u + 1 := ⟨t - 1, by omega⟩
  cases u with
  | zero =>
    simp only [Nat.zero_add, List.range'_one, List.flatMap_cons, List.flatMap_nil,
      List.append_nil]
    rw [loopBody_eq spvBytes _ hlen (by omega), if_pos (by omega), if_pos (by omega)]
  | succ u =>
    rw [List.range'_succ, List.range'_concat, List.flatMap_cons, List.flatMap_cons,
      List.flatMap_append, List.flatMap_append,
      flatMap_loopBody_inner spvBytes hlen u (8 * k + 1) (fun i h1 h2 => by omega),
      loopBody_eq spvBytes (8 * k) hlen (by omega), if_pos (by omega), if_neg (by omega)]
    simp only [List.flatMap_cons, List.flatMap_nil, List.append_nil, Nat.mul_one]
    rw [loopBody_eq spvBytes _ hlen (by omega), if_neg (by omega), if_pos (by omega)]
    simp

theorem range'_full_rows (r : Nat) :
    (List.range r).flatMap (fun k => List.range' (8 * k) 8) = List.range' 0 (8 * r) := by
  induction r with
  | zero => rfl
  | succ r ih =>
    rw [List.range_succ, List.flatMap_append, ih]
    simp only [List.flatMap_cons, List.flatMap_nil, List.append_nil]
    have := List.range'_append_1 0 (8 * r) 8
    rw [Nat.zero_add] at this
    rw [this]
    congr 1
    omega

theorem flatMap_congr_range {β : Type} (r : Nat) (f g : Nat → List β)
    (h : ∀ k, k < r → f k = g k) : (List.range r).flatMap f = (List.range r).flatMap g := by
  induction r with
  | zero => rfl
  | succ r ih =>
    rw [List.range_succ, List.flatMap_append, List.flatMap_append,
      ih (fun k hk => h k (by omega))]
    simp only [List.flatMap_cons, List.flatMap_nil, List.append_nil]
    rw [h r (by omega)]

theorem range'_rows (n : Nat) :
    List.range' 0 n
      = (List.range (rowCount n)).flatMap (fun k => List.range' (8 * k) (rowLength n k)) := by
  unfold rowCount
  by_cases hn : n = 0
  · subst hn; rfl
  · obtain ⟨r, hr⟩ : ∃ r, (n + 7) / 8 = r + 1 := ⟨(n + 7) / 8 - 1, by omega⟩
    rw [hr, List.range_succ, List.flatMap_append,
      flatMap_congr_range r _ (fun k => List.range' (8 * k) 8) (fun k hk => by
        have : rowLength n k = 8 := by unfold rowLength; omega
        rw [this]),
      range'_full_rows]
    simp only [List.flatMap_cons, List.flatMap_nil, List.append_nil]
    have hl : rowLength n r = n - 8 * r := by unfold rowLength; omega
    have := List.range'_append_1 0 (8 * r) (n - 8 * r)
    rw [Nat.zero_add] at this
    rw [hl, this]
    congr 1
    omega

theorem hexEncode_eq_specBody (spvBytes : List Byte) (fuel : Nat)
    (hlen : spvBytes.length < UINT_RANGE) (hfuel : spvBytes.length < fuel) :
    hexEncode spvBytes fuel = some (specBody spvBytes) := by
  rw [hexEncode_eq spvBytes fuel hlen hfuel, range'_rows, List.flatMap_assoc]
  unfold specBody
  rw [flatMap_congr_range _ _ _ (fun k hk => flatMap_loopBody_row spvBytes hlen k hk)]

theorem upperHexDigit_ne_newline (k : Fin 16) : upperHexDigit k.val ≠ '\n' := by
  revert k; decide

theorem count_newline_specToken (spvBytes : List Byte) (i : Nat) :
    (specToken spvBytes i).count '\n' = 0 := by
  rw [List.count_eq_zero]
  unfold specToken upperHexToken
  generalize spvBytes.getD i 0 = c
  have h1 := upperHexDigit_ne_newline ⟨c.val / 16, by omega⟩
  have h2 := upperHexDigit_ne_newline ⟨c.val % 16, by omega⟩
  intro hmem
  split_ifs at hmem <;> simp at hmem <;>
    rcases hmem with h | h <;> first | exact h1 h.symm | exact h2 h.symm

theorem count_newline_specRow (spvBytes : List Byte) (k : Nat) :
    (specRow spvBytes k).count '\n' = 1 := by
  unfold specRow
  rw [List.count_append, List.count_append, List.count_flatMap]
  have hz : (List.map (List.count '\n' ∘ specToken spvBytes)
      (List.range' (8 * k) (rowLength spvBytes.length k))).sum = 0 := by
    apply List.sum_eq_zero
    intro x hx
    simp only [List.mem_map, Function.comp_apply] at hx
    obtain ⟨i, _, rfl⟩ := hx
    exact count_newline_specToken spvBytes i
  rw [hz]
  decide

theorem count_newline_specBody (spvBytes : List Byte) :
    (specBody spvBytes).count '\n' = rowCount spvBytes.length := by
  unfold specBody
  generalize rowCount spvBytes.length = r
  induction r with
  | zero => rfl
  | succ r ih =>
    rw [List.range_succ, List.flatMap_append, List.count_append, ih]
    simp only [List.flatMap_cons, List.flatMap_nil, List.append_nil, count_newline_specRow]

/-- C6, as stated, fails: for 4294967296 bytes no run of the loop, whatever the
fuel, ends with an array body of `ceil(n/8)` lines, because the loop never
ends (the 32-bit counter wraps). -/
theorem hexEncode_no_rows_at_uint_range :
    ¬ ∃ (fuel : Nat) (out : List Char),
        hexEncode (List.replicate 4294967296 (255 : Byte)) fuel = some out ∧
          out.count '\n' = rowCount 4294967296 := by
  rintro ⟨fuel, out, h, _⟩
  have hnone : hexEncode (List.replicate 4294967296 (255 : Byte)) fuel = none := by
    refine hexLoop_wraps _ ?_ fuel 0 [] (by decide)
    rw [List.length_replicate]
    exact Nat.le_refl _
  rw [hnone] at h
  exact Option.noConfusion h

/-- C6, amended: for every byte sequence of length `n < 2^32` the loop
terminates and the array body is exactly `specBody`: `ceil(n/8)` lines, each
made of four blanks, the tokens of its bytes and a line end, every token but
the last of the whole sequence followed by a comma and a blank; every line but
the last holds 8 tokens and the last holds 1 to 8; for `n = 0` nothing is
written. -/
theorem hexEncode_row_layout (spvBytes : List Byte) (fuel : Nat)
    (hlen : spvBytes.length < UINT_RANGE) (hfuel : spvBytes.length < fuel) :
    ∃ out, hexEncode spvBytes fuel = some out ∧
      out = specBody spvBytes ∧
      out.count '\n' = rowCount spvBytes.length ∧
      (∀ k, k + 1 < rowCount spvBytes.length → rowLength spvBytes.length k = 8) ∧
      (0 < spvBytes.length →
        1 ≤ rowLength spvBytes.length (rowCount spvBytes.length - 1) ∧
        rowLength spvBytes.length (rowCount spvBytes.length - 1) ≤ 8) ∧
      (spvBytes.length = 0 → out = []) := by
  refine ⟨_, hexEncode_eq_specBody spvBytes fuel hlen hfuel, rfl,
    count_newline_specBody spvBytes, ?_, ?_, ?_⟩
  · intro k hk
    unfold rowCount at hk
    unfold rowLength
    omega
  · intro hpos
    unfold rowCount rowLength
    omega
  · intro h0
    unfold specBody
    rw [h0]
    rfl

/-- Witness of `hexEncode_row_layout` on nine bytes (two lines: 8 tokens and 1). -/
theorem hexEncode_row_layout_witness :
    ∃ out, hexEncode [1, 2, 3, 4, 5, 6, 7, 8, 9] 10 = some out ∧
      out = specBody [1, 2, 3, 4, 5, 6, 7, 8, 9] ∧
      out.count '\n' = rowCount 9 ∧
      (∀ k, k + 1 < rowCount 9 → rowLength 9 k = 8) ∧
      (0 < 9 → 1 ≤ rowLength 9 (rowCount 9 - 1) ∧ rowLength 9 (rowCount 9 - 1) ≤ 8) ∧
      (9 = 0 → out = []) :=
  hexEncode_row_layout [1, 2, 3, 4, 5, 6, 7, 8, 9] 10 (by decide) (by decide)

/-! ### Frame retention -/

theorem DrawWithBuffers_frameBuffers (r : Renderer) (v i : BufferRef) :
    (DrawWithBuffers r v i).m_frameBuffers
      = if r.commandBuffer.isSome then r.m_frameBuffers ++ [v, i] else r.m_frameBuffers := by
  unfold DrawWithBuffers
  cases h : r.commandBuffer <;> simp

theorem DrawWithBuffers_commandBuffer (r : Renderer) (v i : BufferRef) :
    (DrawWithBuffers r v i).commandBuffer = r.commandBuffer := by
  unfold DrawWithBuffers
  cases h : r.commandBuffer <;> simp [h]

theorem drawAll_commandBuffer (draws : List (BufferRef × BufferRef)) :
    ∀ r : Renderer, (drawAll r draws).commandBuffer = r.commandBuffer := by
  induction draws with
  | nil => intro r; rfl
  | cons d ds ih =>
    intro r
    show (drawAll (DrawWithBuffers r d.1 d.2) ds).commandBuffer = _
    rw [ih, DrawWithBuffers_commandBuffer]

theorem drawAll_frameBuffers (draws : List (BufferRef × BufferRef)) :
    ∀ r : Renderer, (drawAll r draws).m_frameBuffers
      = if r.commandBuffer.isSome then
          r.m_frameBuffers ++ draws.flatMap (fun d => [d.1, d.2])
        else r.m_frameBuffers := by
  induction draws with
  | nil => intro r; simp [drawAll]
  | cons d ds ih =>
    intro r
    show (drawAll (DrawWithBuffers r d.1 d.2) ds).m_frameBuffers = _
    rw [ih, DrawWithBuffers_commandBuffer, DrawWithBuffers_frameBuffers]
    cases h : r.commandBuffer <;> simp

theorem Submit_frameBuffers (r : Renderer) : (Submit r).m_frameBuffers = r.m_frameBuffers := rfl

/-- C2: evaluation of the code at the failing input. After one draw call with
buffers 1 and 2 into a live command buffer, `Submit` leaves both references in
`m_frameBuffers`: the list it clears is `m_frameChunks`. -/
theorem Submit_keeps_frameBuffers :
    (Submit (DrawWithBuffers ⟨some 0, [], [], [], []⟩ 1 2)).m_frameBuffers = [1, 2] ∧
      (Submit (DrawWithBuffers ⟨some 0, [], [], [], []⟩ 1 2)).m_frameChunks = [] ∧
      ∀ r : Renderer, (Submit r).m_frameBuffers = r.m_frameBuffers :=
  ⟨rfl, rfl, fun _ => rfl⟩

theorem drawAll_grows (draws : List (BufferRef × BufferRef)) (r : Renderer) :
    r.m_frameBuffers <+: (drawAll r draws).m_frameBuffers := by
  rw [drawAll_frameBuffers]
  split
  · exact List.prefix_append _ _
  · exact List.prefix_refl _

theorem drawStates_grow (draws : List (BufferRef × BufferRef)) :
    ∀ r : Renderer, ∀ s ∈ drawStates r draws,
      r.m_frameBuffers <+: s.m_frameBuffers ∧
        s.m_frameBuffers <+: (drawAll r draws).m_frameBuffers := by
  induction draws with
  | nil => intro r s hs; simp [drawStates] at hs
  | cons d ds ih =>
    intro r s hs
    have h1 : r.m_frameBuffers <+: (DrawWithBuffers r d.1 d.2).m_frameBuffers :=
      drawAll_grows [d] r
    simp only [drawStates, List.mem_cons] at hs
    show _ ∧ s.m_frameBuffers <+: (drawAll (DrawWithBuffers r d.1 d.2) ds).m_frameBuffers
    rcases hs with rfl | hs
    · exact ⟨h1, drawAll_grows ds _⟩
    · exact ⟨h1.trans (ih _ s hs).1, (ih _ s hs).2⟩

/-- C3: retention safety. Take any renderer state and any sequence of draw
calls followed by `Submit`. After every draw call the retention list still
starts with what it held before (nothing is removed while recording). In every
state `Submit` goes through (after the hand-over to the queue, while the
command buffer is pending; after the idle wait; after the clear) the list
`m_frameBuffers` is the list the draw calls left, and holds both buffers of
every draw call made into a live command buffer. The idle wait ends with no
pending work, and the one list `Submit` clears, `m_frameChunks`, is untouched
until then. -/
theorem retention_safety (r : Renderer) (draws : List (BufferRef × BufferRef)) :
    (∀ s ∈ drawStates r draws,
        r.m_frameBuffers <+: s.m_frameBuffers ∧
        s.m_frameBuffers <+: (drawAll r draws).m_frameBuffers) ∧
      (∀ s ∈ SubmitStates (drawAll r draws),
        s.m_frameBuffers = (drawAll r draws).m_frameBuffers ∧
        (r.commandBuffer.isSome → ∀ d ∈ draws,
          d.1 ∈ s.m_frameBuffers ∧ d.2 ∈ s.m_frameBuffers)) ∧
      (SubmitStates (drawAll r draws)).getLast? = some (Submit (drawAll r draws)) ∧
      (deviceSubmit (drawAll r draws)).pending
        = (drawAll r draws).pending ++ [(drawAll r draws).recorded] ∧
      (deviceSubmit (drawAll r draws)).m_frameChunks = (drawAll r draws).m_frameChunks ∧
      (WaitForGraphicsIdle (deviceSubmit (drawAll r draws))).pending = [] ∧
      (WaitForGraphicsIdle (deviceSubmit (drawAll r draws))).m_frameChunks
        = (drawAll r draws).m_frameChunks := by
  refine ⟨drawStates_grow draws r, ?_, rfl, rfl, rfl, rfl, rfl⟩
  intro s hs
  have hfb : s.m_frameBuffers = (drawAll r draws).m_frameBuffers := by
    simp only [SubmitStates, List.mem_cons, List.mem_singleton, List.not_mem_nil,
      or_false] at hs
    rcases hs with rfl | rfl | rfl <;> rfl
  refine ⟨hfb, ?_⟩
  intro hcb d hd
  rw [hfb, drawAll_frameBuffers, if_pos hcb]
  constructor
  · apply List.mem_append_right
    rw [List.mem_flatMap]
    exact ⟨d, hd, by simp⟩
  · apply List.mem_append_right
    rw [List.mem_flatMap]
    exact ⟨d, hd, by simp⟩

/-- C9, as stated, fails: a `DrawWithBuffers` call made while
`GetCommandBuffer()` returns `nullptr` appends nothing. -/
theorem DrawWithBuffers_null_appends_nothing :
    (DrawWithBuffers ⟨none, [7], [], [], []⟩ 1 2).m_frameBuffers = [7] ∧
      (DrawWithBuffers ⟨none, [7], [], [], []⟩ 1 2).m_frameBuffers ≠ [7] ++ [1, 2] := by
  decide

/-- C9, amended: a `DrawWithBuffers(vertexBuffer, indexBuffer)` call made while
`GetCommandBuffer()` is not `nullptr` leaves the retention list equal to the
list before the call followed by `vertexBuffer` then `indexBuffer`; `k` such
calls make it longer by exactly `2k` entries and keep what it held as a
prefix. -/
theorem DrawWithBuffers_appends (r : Renderer) (vertexBuffer indexBuffer : BufferRef)
    (draws : List (BufferRef × BufferRef)) (hcb : r.commandBuffer ≠ none) :
    (DrawWithBuffers r vertexBuffer indexBuffer).m_frameBuffers
        = r.m_frameBuffers ++ [vertexBuffer, indexBuffer] ∧
      (drawAll r draws).m_frameBuffers
        = r.m_frameBuffers ++ draws.flatMap (fun d => [d.1, d.2]) ∧
      (drawAll r draws).m_frameBuffers.length = r.m_frameBuffers.length + 2 * draws.length := by
  have hs : r.commandBuffer.isSome = true := by
    cases h : r.commandBuffer with
    | none => exact absurd h hcb
    | some _ => rfl
  refine ⟨?_, ?_, ?_⟩
  · rw [DrawWithBuffers_frameBuffers, if_pos hs]
  · rw [drawAll_frameBuffers, if_pos hs]
  · rw [drawAll_frameBuffers, if_pos hs, List.length_append]
    congr 1
    induction draws with
    | nil => rfl
    | cons d ds ih =>
      rw [List.flatMap_cons, List.length_append, ih, List.length_cons]
      simp only [List.length_cons, List.length_nil]
      omega

/-- Witness of `DrawWithBuffers_appends`: two draw calls into a live command
buffer. -/
theorem DrawWithBuffers_appends_witness :
    (DrawWithBuffers ⟨some 0, [7], [], [], []⟩ 1 2).m_frameBuffers = [7] ++ [1, 2] ∧
      (drawAll ⟨some 0, [7], [], [], []⟩ [(1, 2), (3, 4)]).m_frameBuffers
        = [7] ++ [(1, 2), (3, 4)].flatMap (fun d => [d.1, d.2]) ∧
      (drawAll ⟨some 0, [7], [], [], []⟩ [(1, 2), (3, 4)]).m_frameBuffers.length
        = [7].length + 2 * [(1, 2), (3, 4)].length :=
  DrawWithBuffers_appends ⟨some 0, [7], [], [], []⟩ 1 2 [(1, 2), (3, 4)] (by decide)

/-! ### Pipeline toggles -/

/-- C4: for every pair of booleans the constructor sets back-face culling
exactly when `enableCulling` holds and no culling otherwise, and sets depth
test and depth write both to `VK_TRUE` exactly when `enableDepth` holds and both
to `VK_FALSE` otherwise; the two depth flags are always equal; `(false, false)`
disables all three and `(true, true)` enables all three. -/
theorem pipeline_flag_combinations :
    (∀ enableCulling enableDepth : Bool,
      ((rasterizationState enableCulling).cullMode = VK_CULL_MODE_BACK_BIT
          ↔ enableCulling = true) ∧
      ((rasterizationState enableCulling).cullMode = VK_CULL_MODE_NONE
          ↔ enableCulling = false) ∧
      ((depthStencilState enableDepth).depthTestEnable = VK_TRUE ∧
        (depthStencilState enableDepth).depthWriteEnable = VK_TRUE ↔ enableDepth = true) ∧
      ((depthStencilState enableDepth).depthTestEnable = VK_FALSE ∧
        (depthStencilState enableDepth).depthWriteEnable = VK_FALSE ↔ enableDepth = false) ∧
      (depthStencilState enableDepth).depthTestEnable
        = (depthStencilState enableDepth).depthWriteEnable) ∧
    ((rasterizationState false).cullMode = VK_CULL_MODE_NONE ∧
      (depthStencilState false).depthTestEnable = VK_FALSE ∧
      (depthStencilState false).depthWriteEnable = VK_FALSE) ∧
    ((rasterizationState true).cullMode = VK_CULL_MODE_BACK_BIT ∧
      (depthStencilState true).depthTestEnable = VK_TRUE ∧
      (depthStencilState true).depthWriteEnable = VK_TRUE) := by
  decide

/-! ### Naming -/

theorem regex_match_has_dot : ∀ name : List Char, regex_match name = true → '.' ∈ name := by
  intro name
  induction name with
  | nil => intro h; simp [regex_match, matchExtension] at h
  | cons c cs ih =>
    intro h
    simp only [regex_match, Bool.or_eq_true, Bool.and_eq_true] at h
    rcases h with h | ⟨_, h⟩
    · simp only [matchExtension, Bool.or_eq_true, beq_iff_eq] at h
      rcases h with h | h <;> rw [h] <;> simp
    · exact List.mem_cons_of_mem _ (ih h)

theorem codeName_eq_replaceFirstDot :
    ∀ name : List Char, '.' ∈ name → codeName name = some (replaceFirstDot name) := by
  intro name
  induction name with
  | nil => intro h; simp at h
  | cons c cs ih =>
    intro h
    by_cases hc : c = '.'
    · subst hc
      simp [codeName, find, replace, replaceFirstDot]
    · have hcs : '.' ∈ cs := by
        rcases List.mem_cons.1 h with h | h
        · exact absurd h.symm hc
        · exact h
      have := ih hcs
      unfold codeName replace at this
      unfold codeName replace
      simp only [find, if_neg hc, replaceFirstDot]
      cases hf : find cs with
      | none => rw [hf] at this; simp at this
      | some p =>
        rw [hf] at this
        simp only [Option.map_some']
        by_cases hp : p > cs.length
        · simp [hp] at this
        · simp only [hp, if_false, Option.some.injEq] at this
          have hp' : ¬ (p + 1 > (c :: cs).length) := by simp; omega
          simp only [hp', if_false, List.take_succ_cons, List.drop_succ_cons, Option.some.injEq]
          simp only [List.cons_append, List.cons.injEq, true_and]
          exact this

/-- C5: for every file name the scan accepts, `codeName` is the name with its
first `.` replaced by `_` (the `replace` call does not throw), the byte array
is named `codeName` followed by `_spv` and the length constant `codeName`
followed by `_spv_len`; for `foo.vert` these are `foo_vert_spv` and
`foo_vert_spv_len`. -/
theorem naming_transform :
    (∀ name : List Char, regex_match name = true →
      ∃ N, codeName name = some N ∧ N = replaceFirstDot name ∧
        arrayName N = replaceFirstDot name ++ "_spv".toList ∧
        lengthName N = replaceFirstDot name ++ "_spv_len".toList) ∧
    regex_match "foo.vert".toList = true ∧
    (codeName "foo.vert".toList).map arrayName = some "foo_vert_spv".toList ∧
    (codeName "foo.vert".toList).map lengthName = some "foo_vert_spv_len".toList := by
  refine ⟨?_, by decide, by decide, by decide⟩
  intro name h
  exact ⟨_, codeName_eq_replaceFirstDot name (regex_match_has_dot name h), rfl, rfl, rfl⟩

/-! ### The tool: names of the files it writes -/

theorem hexLoop_short (spvBytes : List Byte) (hlen : spvBytes.length < UINT_RANGE) :
    ∀ (fuel i : Nat) (out : List Char), i ≤ spvBytes.length → fuel ≤ spvBytes.length - i →
      hexLoop spvBytes fuel i out = none := by
  intro fuel
  induction fuel with
  | zero => intro i out _ _; rfl
  | succ fuel ih =>
    intro i out hi hf
    rw [hexLoop, if_pos (by omega)]
    have hw : (i + 1) % UINT_RANGE = i + 1 := Nat.mod_eq_of_lt (by omega)
    rw [hw]
    exact ih _ _ (by omega) (by omega)

/-- More fuel than `spvLength + 1` changes nothing: a loop that ends at all ends
within `spvLength + 1` tests of its condition. -/
theorem hexEncode_fuel (spvBytes : List Byte) (fuel : Nat) (out : List Char)
    (h : hexEncode spvBytes fuel = some out) :
    hexEncode spvBytes (spvBytes.length + 1) = some out := by
  by_cases hlen : spvBytes.length < UINT_RANGE
  · by_cases hf : spvBytes.length < fuel
    · rw [hexEncode_eq spvBytes fuel hlen hf] at h
      rw [hexEncode_eq spvBytes _ hlen (by omega)]
      exact h
    · have := hexLoop_short spvBytes hlen fuel 0 [] (Nat.zero_le _) (by omega)
      unfold hexEncode at h
      rw [this] at h
      exact Option.noConfusion h
  · have := hexLoop_wraps spvBytes (by omega) fuel 0 [] (by decide)
    unfold hexEncode at h
    rw [this] at h
    exact Option.noConfusion h

theorem spv_ne_meta (n : List Char) : n ++ ".spv".toList ≠ metaName := by
  intro h
  have := congrArg List.reverse h
  simp [metaName] at this

theorem header_ne_meta (n : List Char) : n ++ ".spv.h".toList ≠ metaName := by
  intro h
  have := congrArg List.reverse h
  simp [metaName] at this

theorem spv_ne_header (a b : List Char) : a ++ ".spv".toList ≠ b ++ ".spv.h".toList := by
  intro h
  have := congrArg List.reverse h
  simp at this

theorem filename_no_slash (path : List Char) : '/' ∉ filename path := by
  unfold filename
  intro h
  rw [List.mem_reverse] at h
  have := List.mem_takeWhile_imp h
  simp at this

theorem filename_append (dir name : List Char) (h : '/' ∉ name) :
    filename (pathAppend dir name) = name := by
  have key : ∀ p : List Char, filename (p ++ '/' :: name) = name := by
    intro p
    unfold filename
    rw [List.reverse_append, List.reverse_cons, List.append_assoc,
      List.takeWhile_append_of_pos]
    · simp [List.takeWhile]
    · intro c hc
      rw [List.mem_reverse] at hc
      simp
      rintro rfl
      exact h hc
  have key0 : filename name = name := by
    unfold filename
    rw [List.takeWhile_eq_self_iff.2, List.reverse_reverse]
    intro c hc
    rw [List.mem_reverse] at hc
    simp
    rintro rfl
    exact h hc
  unfold pathAppend
  split_ifs with hd
  · rcases hd with hd | hd
    · rw [hd]; exact key0
    · obtain ⟨p, rfl⟩ : ∃ p, dir = p ++ ['/'] := by
        rw [List.getLast?_eq_some_iff] at hd
        exact hd
      rw [List.append_assoc]
      exact key p
  · exact key dir

theorem pathAppend_append (dir name ext : List Char) :
    pathAppend dir name ++ ext = pathAppend dir (name ++ ext) := by
  unfold pathAppend
  split_ifs <;> simp

/-- The text of the line added to `Shaders.h` for the shader file `f`. -/
theorem includeLine_eq (env : Env) (f : List Char) :
    includeLine env f
      = "#include \"".toList ++ (filename f ++ ".spv.h".toList) ++ "\"\n".toList := by
  unfold includeLine
  rw [pathAppend_append, filename_append]
  · simp
  · intro h
    rcases List.mem_append.1 h with h | h
    · exact filename_no_slash f h
    · simp at h

/-! ### The tool: the aggregated include file -/

theorem writeFile_other (d : Dir) (name n : List Char) (data : List Byte) (h : n ≠ name) :
    writeFile d name data n = d n := by
  unfold writeFile
  rw [if_neg h]

theorem writeFile_same (d : Dir) (name : List Char) (data : List Byte) :
    writeFile d name data name = some data := by
  unfold writeFile
  rw [if_pos rfl]

theorem spvWritten_other (env : Env) (f : List Char) (d : Dir) (n : List Char)
    (h : n ≠ filename f ++ ".spv".toList) : spvWritten env f d n = d n := by
  unfold spvWritten
  cases (env.system (glslc env f)).2 with
  | none => rfl
  | some bytes => exact writeFile_other _ _ _ _ h

theorem headerWritten_other (env : Env) (f name : List Char) (spvBytes : List Byte)
    (body : List Char) (d : Dir) (n : List Char) (h : n ≠ filename f ++ ".spv.h".toList) :
    headerWritten env f name spvBytes body d n = d n := by
  unfold headerWritten
  by_cases ho : env.ofstreamOpens (filename f ++ ".spv.h".toList) = true
  · rw [if_pos ho]; exact writeFile_other _ _ _ _ h
  · rw [if_neg ho]

theorem includeWritten_other (env : Env) (metaOpen : Bool) (f : List Char) (d : Dir)
    (n : List Char) (h : n ≠ metaName) : includeWritten env metaOpen f d n = d n := by
  unfold includeWritten
  by_cases ho : metaOpen = true
  · rw [if_pos ho]; exact writeFile_other _ _ _ _ h
  · rw [if_neg ho]

/-- What a pass that reaches the end of the loop body went through. -/
theorem compileShader_next (env : Env) (metaOpen : Bool) (f : List Char) (d d1 : Dir)
    (h : compileShader env metaOpen f d = Step.next d1) :
    ∃ name spvBytes body,
      (env.system (glslc env f)).1 = 0 ∧
      codeName (filename f) = some name ∧
      spvWritten env f d (filename f ++ ".spv".toList) = some spvBytes ∧
      hexEncode spvBytes (spvBytes.length + 1) = some body ∧
      d1 = includeWritten env metaOpen f
        (headerWritten env f name spvBytes body (spvWritten env f d)) := by
  unfold compileShader at h
  split_ifs at h with hret
  split at h
  · exact Step.noConfusion h
  · rename_i name hname
    split at h
    · exact Step.noConfusion h
    · rename_i spvBytes hspv
      split_ifs at h with hthrow
      split at h
      · exact Step.noConfusion h
      · rename_i body hbody
        refine ⟨name, spvBytes, body, not_not.1 hret, hname, hspv, hbody, ?_⟩
        exact (Step.next.inj h).symm

/-- A pass that reaches the end of the loop body met no exception at lines
105-106. -/
theorem compileShader_no_throw (env : Env) (metaOpen : Bool) (f : List Char) (d d1 : Dir)
    (h : compileShader env metaOpen f d = Step.next d1) :
    env.fileSizeThrows (filename f ++ ".spv".toList) = false ∧
      ∃ spvBytes, spvWritten env f d (filename f ++ ".spv".toList) = some spvBytes ∧
        env.allocationThrows (filename f ++ ".spv".toList) spvBytes.length = false := by
  unfold compileShader at h
  split_ifs at h with hret
  split at h
  · exact Step.noConfusion h
  · split at h
    · exact Step.noConfusion h
    · rename_i spvBytes hspv
      split_ifs at h with hthrow
      rw [not_or] at hthrow
      exact ⟨by simpa using hthrow.1, spvBytes, hspv, by simpa using hthrow.2⟩

theorem compileShader_meta (env : Env) (f : List Char) (d d1 : Dir) (x : List Byte)
    (h : compileShader env true f d = Step.next d1) (hx : d metaName = some x) :
    d1 metaName = some (x ++ toBytes (includeLine env f)) := by
  obtain ⟨name, spvBytes, body, _, _, _, _, rfl⟩ := compileShader_next env true f d d1 h
  have h1 : headerWritten env f name spvBytes body (spvWritten env f d) metaName = some x := by
    rw [headerWritten_other _ _ _ _ _ _ _ (header_ne_meta _).symm,
      spvWritten_other _ _ _ _ (spv_ne_meta _).symm, hx]
  unfold includeWritten appendFile
  rw [if_pos rfl, writeFile_same, h1]
  rfl

theorem toBytes_append (a b : List Char) : toBytes (a ++ b) = toBytes a ++ toBytes b := by
  unfold toBytes
  exact List.map_append _ _ _

theorem compileAll_meta (env : Env) (fs : List (List Char)) :
    ∀ (d d1 : Dir) (x : List Char), compileAll env true fs d = Step.next d1 →
      d metaName = some (toBytes x) →
      d1 metaName = some (toBytes (x ++ fs.flatMap (includeLine env))) := by
  induction fs with
  | nil =>
    intro d d1 x h hx
    rw [compileAll] at h
    rw [← Step.next.inj h]
    simpa using hx
  | cons f fs ih =>
    intro d d1 x h hx
    rw [compileAll] at h
    split at h
    · rename_i d2 hstep
      have := compileShader_meta env f d d2 _ hstep hx
      rw [← toBytes_append] at this
      have := ih d2 d1 _ h this
      rw [this, List.flatMap_cons, List.append_assoc]
    · exact Step.noConfusion h
    · exact Step.noConfusion h

/-- A run that returns 0 went through `generate` with a scan that did not
throw and a loop that reached its end. -/
theorem main_success (env : Env) (prior : Option Dir)
    (h : (main env prior).map Result.exitCode = some 0) :
    ∃ entries d, env.scan = some entries ∧
      compileAll env (env.ofstreamOpens metaName) (shaderFiles entries) (metaStarted env)
        = Step.next d ∧
      main env prior = some ⟨0, some d⟩ ∧
      env.argc = 3 ∧ ¬ (prior.isSome ∧ env.removeAllThrows = true) ∧
      env.createDirectoryThrows = false := by
  unfold main at h ⊢
  split_ifs at h ⊢ with h1 h2 h3
  · simp at h
  · simp at h
  · simp at h
  · unfold generate at h ⊢
    cases hs : env.scan with
    | none => rw [hs] at h; simp at h
    | some entries =>
      rw [hs] at h
      simp only at h ⊢
      split at h
      · rename_i d hd
        exact ⟨entries, d, rfl, hd, rfl, not_not.1 h1, h2, by simpa using h3⟩
      · simp at h
      · simp at h

theorem metaStarted_meta (env : Env) (hopen : env.ofstreamOpens metaName = true) :
    metaStarted env metaName = some (toBytes (fileStart env.now ++ "\n".toList)) := by
  unfold metaStarted appendFile
  rw [if_pos hopen, writeFile_same]
  rfl

/-- C8, as stated, fails: the run `unwritableEnv` returns 0, its scan selected
`a.vert` and `a.frag`, and the output directory holds no `Shaders.h`, hence no
include line: the stream on `Shaders.h` did not open and the tool never tests
it. -/
theorem shaders_h_missing_after_exit_zero :
    (main unwritableEnv none).map Result.exitCode = some 0 ∧
      unwritableEnv.scan.map shaderFiles
        = some ["shaders/a.vert".toList, "shaders/a.frag".toList] ∧
      fileAfter unwritableEnv none "Shaders.h".toList = none := by
  decide

/-- C8, amended: after a run that returns 0 and whose stream on `Shaders.h`
opened, `Shaders.h` holds the banner, an empty line, and then exactly one line
`#include "<name>.spv.h"` per shader file the scan selected, in scan order,
and nothing else. -/
theorem shaders_h_includes (env : Env) (prior : Option Dir)
    (hok : (main env prior).map Result.exitCode = some 0)
    (hopen : env.ofstreamOpens metaName = true) :
    ∃ entries d, env.scan = some entries ∧
      (main env prior).bind Result.outDir = some d ∧
      d metaName = some (toBytes (fileStart env.now ++ "\n".toList ++
        (shaderFiles entries).flatMap (fun f =>
          "#include \"".toList ++ (filename f ++ ".spv.h".toList) ++ "\"\n".toList))) := by
  obtain ⟨entries, d, hscan, hall, hmain, _⟩ := main_success env prior hok
  refine ⟨entries, d, hscan, by rw [hmain]; rfl, ?_⟩
  rw [hopen] at hall
  have := compileAll_meta env _ _ d _ hall (metaStarted_meta env hopen)
  rw [this]
  have hfun : includeLine env = fun f =>
      "#include \"".toList ++ (filename f ++ ".spv.h".toList) ++ "\"\n".toList :=
    funext (includeLine_eq env)
  rw [hfun]

/-- Witness of `shaders_h_includes`: the source directory holds exactly
`a.vert` and `a.frag`. -/
theorem shaders_h_includes_witness :
    ∃ entries d, exampleEnv.scan = some entries ∧
      (main exampleEnv none).bind Result.outDir = some d ∧
      d metaName = some (toBytes (fileStart exampleEnv.now ++ "\n".toList ++
        (shaderFiles entries).flatMap (fun f =>
          "#include \"".toList ++ (filename f ++ ".spv.h".toList) ++ "\"\n".toList))) :=
  shaders_h_includes exampleEnv none (by decide) (by decide)

/-- The scenario of C8 evaluated: for `a.vert` and `a.frag` the file holds two
include lines, in scan order. -/
theorem shaders_h_example :
    shaderFiles [⟨"shaders/a.vert".toList, true⟩, ⟨"shaders/a.frag".toList, true⟩]
        = ["shaders/a.vert".toList, "shaders/a.frag".toList] ∧
      (main exampleEnv none).bind (fun r => r.outDir.bind (fun d => d metaName))
        = some (toBytes ("// Generated by ShaderCompiler\n// 2024-01-01 00:00:00\n\n#pragma once\n\n#include \"a.vert.spv.h\"\n#include \"a.frag.spv.h\"\n".toList)) := by
  decide

/-! ### The tool: regeneration -/

theorem writeFile_isSome (d : Dir) (name n : List Char) (data : List Byte)
    (h : (d n).isSome = true) : (writeFile d name data n).isSome = true := by
  unfold writeFile
  split_ifs
  · rfl
  · exact h

theorem spvWritten_isSome (env : Env) (f : List Char) (d : Dir) (n : List Char)
    (h : (d n).isSome = true) : (spvWritten env f d n).isSome = true := by
  unfold spvWritten
  cases (env.system (glslc env f)).2 with
  | none => exact h
  | some bytes => exact writeFile_isSome _ _ _ _ h

theorem headerWritten_isSome (env : Env) (f name : List Char) (spvBytes : List Byte)
    (body : List Char) (d : Dir) (n : List Char) (h : (d n).isSome = true) :
    (headerWritten env f name spvBytes body d n).isSome = true := by
  unfold headerWritten
  by_cases ho : env.ofstreamOpens (filename f ++ ".spv.h".toList) = true
  · rw [if_pos ho]; exact writeFile_isSome _ _ _ _ h
  · rw [if_neg ho]; exact h

theorem includeWritten_isSome (env : Env) (metaOpen : Bool) (f : List Char) (d : Dir)
    (n : List Char) (h : (d n).isSome = true) :
    (includeWritten env metaOpen f d n).isSome = true := by
  unfold includeWritten
  by_cases ho : metaOpen = true
  · rw [if_pos ho]; exact writeFile_isSome _ _ _ _ h
  · rw [if_neg ho]; exact h

/-- A pass adds no file but `Shaders.h`, `<name>.spv` and `<name>.spv.h`. -/
theorem compileShader_names (env : Env) (metaOpen : Bool) (f : List Char) (d d1 : Dir)
    (h : compileShader env metaOpen f d = Step.next d1) (n : List Char)
    (hn : (d1 n).isSome = true) :
    (d n).isSome = true ∨ IsArtifact [f] n := by
  obtain ⟨name, spvBytes, body, _, _, _, _, rfl⟩ := compileShader_next env metaOpen f d d1 h
  by_cases h1 : n = metaName
  · exact Or.inr (Or.inl h1)
  by_cases h2 : n = filename f ++ ".spv.h".toList
  · exact Or.inr (Or.inr ⟨f, List.mem_singleton.2 rfl, Or.inr h2⟩)
  by_cases h3 : n = filename f ++ ".spv".toList
  · exact Or.inr (Or.inr ⟨f, List.mem_singleton.2 rfl, Or.inl h3⟩)
  rw [includeWritten_other _ _ _ _ _ h1, headerWritten_other _ _ _ _ _ _ _ h2,
    spvWritten_other _ _ _ _ h3] at hn
  exact Or.inl hn

/-- A pass removes no file. -/
theorem compileShader_keeps (env : Env) (metaOpen : Bool) (f : List Char) (d d1 : Dir)
    (h : compileShader env metaOpen f d = Step.next d1) (n : List Char)
    (hn : (d n).isSome = true) : (d1 n).isSome = true := by
  obtain ⟨name, spvBytes, body, _, _, _, _, rfl⟩ := compileShader_next env metaOpen f d d1 h
  exact includeWritten_isSome _ _ _ _ _
    (headerWritten_isSome _ _ _ _ _ _ _ (spvWritten_isSome _ _ _ _ hn))

/-- A pass leaves `<name>.spv`, and `<name>.spv.h` when its stream opened. -/
theorem compileShader_creates (env : Env) (metaOpen : Bool) (f : List Char) (d d1 : Dir)
    (h : compileShader env metaOpen f d = Step.next d1) :
    (d1 (filename f ++ ".spv".toList)).isSome = true ∧
      (env.ofstreamOpens (filename f ++ ".spv.h".toList) = true →
        (d1 (filename f ++ ".spv.h".toList)).isSome = true) := by
  obtain ⟨name, spvBytes, body, _, _, hspv, _, rfl⟩ := compileShader_next env metaOpen f d d1 h
  constructor
  · apply includeWritten_isSome
    apply headerWritten_isSome
    rw [hspv]
    rfl
  · intro ho
    apply includeWritten_isSome
    unfold headerWritten appendFile
    rw [if_pos ho, writeFile_same]
    rfl

theorem compileAll_names (env : Env) (metaOpen : Bool) (fs : List (List Char)) :
    ∀ (d d1 : Dir), compileAll env metaOpen fs d = Step.next d1 →
      (∀ n, (d1 n).isSome = true → (d n).isSome = true ∨ IsArtifact fs n) ∧
      (∀ n, (d n).isSome = true → (d1 n).isSome = true) ∧
      (∀ f ∈ fs, (d1 (filename f ++ ".spv".toList)).isSome = true ∧
        (env.ofstreamOpens (filename f ++ ".spv.h".toList) = true →
          (d1 (filename f ++ ".spv.h".toList)).isSome = true)) := by
  induction fs with
  | nil =>
    intro d d1 h
    rw [compileAll] at h
    rw [← Step.next.inj h]
    exact ⟨fun n hn => Or.inl hn, fun n hn => hn, fun f hf => absurd hf (List.not_mem_nil f)⟩
  | cons f fs ih =>
    intro d d1 h
    rw [compileAll] at h
    split at h
    · rename_i d2 hstep
      obtain ⟨ih1, ih2, ih3⟩ := ih d2 d1 h
      refine ⟨?_, ?_, ?_⟩
      · intro n hn
        rcases ih1 n hn with h2 | h2
        · rcases compileShader_names env metaOpen f d d2 hstep n h2 with h3 | h3
          · exact Or.inl h3
          · right
            rcases h3 with h3 | ⟨g, hg, h3⟩
            · exact Or.inl h3
            · exact Or.inr ⟨g, List.mem_cons.2 (Or.inl (List.mem_singleton.1 hg)), h3⟩
        · right
          rcases h2 with h2 | ⟨g, hg, h2⟩
          · exact Or.inl h2
          · exact Or.inr ⟨g, List.mem_cons_of_mem _ hg, h2⟩
      · intro n hn
        exact ih2 n (compileShader_keeps env metaOpen f d d2 hstep n hn)
      · intro g hg
        rcases List.mem_cons.1 hg with rfl | hg
        · have := compileShader_creates env metaOpen g d d2 hstep
          exact ⟨ih2 _ this.1, fun ho => ih2 _ (this.2 ho)⟩
        · exact ih3 g hg
    · exact Step.noConfusion h
    · exact Step.noConfusion h

theorem metaStarted_names (env : Env) (n : List Char)
    (h : (metaStarted env n).isSome = true) : n = metaName := by
  unfold metaStarted appendFile writeFile emptyDir at h
  by_contra hne
  split_ifs at h <;> simp_all

/-- Two environments with the same arguments after the count, the same
compiler results, the same time and the same streams opening take a pass that
reaches the end of the loop body to the same directory. -/
theorem compileShader_congr (env1 env2 : Env) (metaOpen : Bool) (f : List Char)
    (d e1 e2 : Dir)
    (hsrc : env1.srcDir = env2.srcDir) (hout : env1.outDir = env2.outDir)
    (hsys : env1.system = env2.system) (hnow : env1.now = env2.now)
    (hopen : env1.ofstreamOpens = env2.ofstreamOpens)
    (h1 : compileShader env1 metaOpen f d = Step.next e1)
    (h2 : compileShader env2 metaOpen f d = Step.next e2) : e1 = e2 := by
  obtain ⟨n1, b1, body1, _, hn1, hs1, hb1, rfl⟩ := compileShader_next env1 metaOpen f d e1 h1
  obtain ⟨n2, b2, body2, _, hn2, hs2, hb2, rfl⟩ := compileShader_next env2 metaOpen f d e2 h2
  have hcmd : glslc env1 f = glslc env2 f := by unfold glslc; rw [hsrc, hout]
  have hspv : spvWritten env1 f d = spvWritten env2 f d := by
    unfold spvWritten; rw [hsys, hcmd]
  rw [hspv] at hs1
  have hb : b1 = b2 := Option.some.inj (hs1.symm.trans hs2)
  subst hb
  have hn : n1 = n2 := Option.some.inj (hn1.symm.trans hn2)
  subst hn
  have hbody : body1 = body2 := Option.some.inj (hb1.symm.trans hb2)
  subst hbody
  unfold includeWritten headerWritten
  rw [includeLine_eq, includeLine_eq, hspv, hopen, hnow]

theorem compileAll_congr (env1 env2 : Env) (metaOpen : Bool)
    (hsrc : env1.srcDir = env2.srcDir) (hout : env1.outDir = env2.outDir)
    (hsys : env1.system = env2.system) (hnow : env1.now = env2.now)
    (hopen : env1.ofstreamOpens = env2.ofstreamOpens) (fs : List (List Char)) :
    ∀ d e1 e2, compileAll env1 metaOpen fs d = Step.next e1 →
      compileAll env2 metaOpen fs d = Step.next e2 → e1 = e2 := by
  induction fs with
  | nil =>
    intro d e1 e2 h1 h2
    rw [compileAll] at h1 h2
    exact (Step.next.inj h1).symm.trans (Step.next.inj h2)
  | cons f fs ih =>
    intro d e1 e2 h1 h2
    rw [compileAll] at h1 h2
    split at h1
    · rename_i x1 hx1
      split at h2
      · rename_i x2 hx2
        have := compileShader_congr env1 env2 metaOpen f d x1 x2 hsrc hout hsys hnow hopen
          hx1 hx2
        subst this
        exact ih _ _ _ h1 h2
      · exact Step.noConfusion h2
      · exact Step.noConfusion h2
    · exact Step.noConfusion h1
    · exact Step.noConfusion h1

/-- C10, amended: take two runs that return 0 and have the same arguments after
the count, the same scan, the same compiler results, the same banner time
stamp and the same output streams opening. Whatever the output directory of
each held before (or whether it existed), they leave the same output
directory; every file in it is an artifact of a shader file of the current
scan (`Shaders.h`, `<name>.spv`, `<name>.spv.h`), so nothing of a removed
source survives; and when the output streams opened, every such artifact is
there. -/
theorem regeneration (env1 env2 : Env) (prior1 prior2 : Option Dir)
    (hsrc : env1.srcDir = env2.srcDir) (hout : env1.outDir = env2.outDir)
    (hscan : env1.scan = env2.scan) (hsys : env1.system = env2.system)
    (hnow : env1.now = env2.now) (hstreams : env1.ofstreamOpens = env2.ofstreamOpens)
    (h1 : (main env1 prior1).map Result.exitCode = some 0)
    (h2 : (main env2 prior2).map Result.exitCode = some 0) :
    ∃ entries d, env1.scan = some entries ∧
      (main env1 prior1).bind Result.outDir = some d ∧
      (main env2 prior2).bind Result.outDir = some d ∧
      (∀ n, (d n).isSome = true → IsArtifact (shaderFiles entries) n) ∧
      ((∀ n, env1.ofstreamOpens n = true) →
        ∀ n, IsArtifact (shaderFiles entries) n → (d n).isSome = true) := by
  obtain ⟨entries, d, hscan1, hall, hmain, _⟩ := main_success env1 prior1 h1
  obtain ⟨entries2, d2, hscan2, hall2, hmain2, _⟩ := main_success env2 prior2 h2
  have he : entries2 = entries := by
    rw [← hscan, hscan1] at hscan2
    exact (Option.some.inj hscan2).symm
  subst he
  have hstart : metaStarted env2 = metaStarted env1 := by
    unfold metaStarted
    rw [hstreams, hnow]
  rw [hstart, ← hstreams] at hall2
  have hd : d = d2 :=
    compileAll_congr env1 env2 _ hsrc hout hsys hnow hstreams _ _ _ _ hall hall2
  subst hd
  obtain ⟨hn1, hn2, hn3⟩ := compileAll_names env1 _ _ _ _ hall
  refine ⟨entries2, d, hscan1, by rw [hmain]; rfl, by rw [hmain2]; rfl, ?_, ?_⟩
  · intro n hn
    rcases hn1 n hn with h | h
    · exact Or.inl (metaStarted_names env1 n h)
    · exact h
  · intro hopen n hn
    rcases hn with rfl | ⟨f, hf, rfl | rfl⟩
    · apply hn2
      rw [metaStarted_meta env1 (hopen _)]
      rfl
    · exact (hn3 f hf).1
    · exact (hn3 f hf).2 (hopen _)

/-- Witness of `regeneration`: the run on `a.vert` and `a.frag`, once over an
output directory holding a stale file, and once with no output directory, in
an environment where removing the directory would throw and large buffers
cannot be allocated. -/
theorem regeneration_witness :
    ∃ entries d, exampleEnv.scan = some entries ∧
      (main exampleEnv (some (writeFile emptyDir "old.vert.spv.h".toList [0]))).bind
        Result.outDir = some d ∧
      (main { exampleEnv with
          removeAllThrows := true
          allocationThrows := fun _ n => decide (1000 < n) } none).bind
        Result.outDir = some d ∧
      (∀ n, (d n).isSome = true → IsArtifact (shaderFiles entries) n) ∧
      ((∀ n, exampleEnv.ofstreamOpens n = true) →
        ∀ n, IsArtifact (shaderFiles entries) n → (d n).isSome = true) :=
  regeneration exampleEnv
    { exampleEnv with
      removeAllThrows := true
      allocationThrows := fun _ n => decide (1000 < n) }
    (some (writeFile emptyDir "old.vert.spv.h".toList [0])) none
    rfl rfl rfl rfl rfl rfl (by decide) (by decide)

/-- C10, as stated, fails, in two ways. Two runs on the same sources with the
same compiler results, made at different times, leave different contents in
the output directory, because the banner of every generated file carries the
time. And two runs that differ only in whether the output streams open both
return 0 and leave different directories: without the streams neither
`Shaders.h` nor a header is there, so the directory does not hold exactly the
artifacts of the source set. -/
theorem regeneration_counterexample :
    ((main exampleEnv none).map Result.exitCode = some 0 ∧
      (main laterEnv none).map Result.exitCode = some 0 ∧
      laterEnv.scan = exampleEnv.scan ∧ laterEnv.system = exampleEnv.system ∧
      fileAfter exampleEnv none metaName ≠ fileAfter laterEnv none metaName) ∧
    ((main unwritableEnv none).map Result.exitCode = some 0 ∧
      unwritableEnv.scan = exampleEnv.scan ∧ unwritableEnv.system = exampleEnv.system ∧
      unwritableEnv.now = exampleEnv.now ∧
      (fileAfter exampleEnv none metaName).isSome = true ∧
      fileAfter unwritableEnv none metaName = none ∧
      fileAfter unwritableEnv none "a.vert.spv.h".toList = none ∧
      (fileAfter unwritableEnv none "a.vert.spv".toList).isSome = true) := by
  refine ⟨⟨by decide, by decide, rfl, rfl, by decide⟩,
    by decide, rfl, rfl, rfl, by decide, by decide, by decide, by decide⟩

/-! ### The tool: exit codes -/

theorem smallSpv_write_h (d : Dir) (name : List Char) (data : List Byte)
    (hname : name.getLast? = some 'h') (h : SmallSpv d) : SmallSpv (writeFile d name data) := by
  intro n bytes hn hv
  unfold writeFile at hn
  split_ifs at hn with heq
  · rw [heq, hname] at hv
    exact absurd hv (by decide)
  · exact h n bytes hn hv

theorem last_header (n : List Char) : (n ++ ".spv.h".toList).getLast? = some 'h' := by
  simp

theorem last_spv (n : List Char) : (n ++ ".spv".toList).getLast? = some 'v' := by
  simp

theorem smallSpv_metaStarted (env : Env) : SmallSpv (metaStarted env) := by
  have h0 : SmallSpv emptyDir := fun n bytes hn _ => Option.noConfusion hn
  unfold metaStarted
  split_ifs
  · exact smallSpv_write_h _ _ _ (by decide) h0
  · exact h0

theorem smallSpv_spvWritten (env : Env) (f : List Char) (d : Dir)
    (hsmall : ∀ cmd bytes, (env.system cmd).2 = some bytes → bytes.length < UINT_RANGE)
    (h : SmallSpv d) : SmallSpv (spvWritten env f d) := by
  unfold spvWritten
  cases hs : (env.system (glslc env f)).2 with
  | none => exact h
  | some data =>
    intro n bytes hn hv
    simp only at hn
    unfold writeFile at hn
    split_ifs at hn
    · rw [← Option.some.inj hn]
      exact hsmall _ _ hs
    · exact h n bytes hn hv

theorem smallSpv_headerWritten (env : Env) (f name : List Char) (spvBytes : List Byte)
    (body : List Char) (d : Dir) (h : SmallSpv d) :
    SmallSpv (headerWritten env f name spvBytes body d) := by
  unfold headerWritten
  split_ifs
  · exact smallSpv_write_h _ _ _ (last_header _) h
  · exact h

theorem smallSpv_includeWritten (env : Env) (metaOpen : Bool) (f : List Char) (d : Dir)
    (h : SmallSpv d) : SmallSpv (includeWritten env metaOpen f d) := by
  unfold includeWritten
  split_ifs
  · exact smallSpv_write_h _ _ _ (by decide) h
  · exact h

/-- With compiler outputs shorter than `UINT_RANGE`, a pass never hangs and
keeps the SPV files short. -/
theorem compileShader_ends (env : Env) (metaOpen : Bool) (f : List Char) (d : Dir)
    (hsmall : ∀ cmd bytes, (env.system cmd).2 = some bytes → bytes.length < UINT_RANGE)
    (h : SmallSpv d) :
    compileShader env metaOpen f d ≠ Step.hang ∧
      ∀ d1, compileShader env metaOpen f d = Step.next d1 → SmallSpv d1 := by
  have h1 := smallSpv_spvWritten env f d hsmall h
  constructor
  · unfold compileShader
    split_ifs
    · exact fun hh => Step.noConfusion hh
    · split
      · exact fun hh => Step.noConfusion hh
      · split
        · exact fun hh => Step.noConfusion hh
        · rename_i spvBytes hspv
          rw [hexEncode_eq spvBytes _ (h1 _ _ hspv (last_spv _)) (by omega)]
          split_ifs <;> exact fun hh => Step.noConfusion hh
  · intro d1 hd1
    obtain ⟨name, spvBytes, body, _, _, _, _, rfl⟩ := compileShader_next env metaOpen f d d1 hd1
    exact smallSpv_includeWritten _ _ _ _ (smallSpv_headerWritten _ _ _ _ _ _ h1)

theorem compileAll_ends (env : Env) (metaOpen : Bool)
    (hsmall : ∀ cmd bytes, (env.system cmd).2 = some bytes → bytes.length < UINT_RANGE)
    (fs : List (List Char)) :
    ∀ d, SmallSpv d → compileAll env metaOpen fs d ≠ Step.hang := by
  induction fs with
  | nil => intro d _ hh; rw [compileAll] at hh; exact Step.noConfusion hh
  | cons f fs ih =>
    intro d hd
    obtain ⟨h1, h2⟩ := compileShader_ends env metaOpen f d hsmall hd
    rw [compileAll]
    split
    · rename_i d1 hstep
      exact ih d1 (h2 d1 hstep)
    · exact fun hh => Step.noConfusion hh
    · rename_i hstep
      exact absurd hstep h1

/-- A loop that reaches its end met no compiler failure. -/
theorem compileAll_ret (env : Env) (metaOpen : Bool) (fs : List (List Char)) :
    ∀ d d1, compileAll env metaOpen fs d = Step.next d1 →
      ∀ f ∈ fs, (env.system (glslc env f)).1 = 0 := by
  induction fs with
  | nil => intro d d1 _ f hf; exact absurd hf (List.not_mem_nil f)
  | cons g fs ih =>
    intro d d1 h f hf
    rw [compileAll] at h
    split at h
    · rename_i d2 hstep
      rcases List.mem_cons.1 hf with rfl | hf
      · obtain ⟨_, _, _, hret, _⟩ := compileShader_next env metaOpen f d d2 hstep
        exact hret
      · exact ih d2 d1 h f hf
    · exact Step.noConfusion h
    · exact Step.noConfusion h

/-- A loop that reaches its end found the SPV file of every shader: some
compiler run for a file of that name wrote it, or it was there before. -/
theorem compileAll_spv (env : Env) (metaOpen : Bool) (fs : List (List Char)) :
    ∀ d d1, compileAll env metaOpen fs d = Step.next d1 →
      ∀ f ∈ fs, (d (filename f ++ ".spv".toList)).isSome = true ∨
        ∃ g ∈ fs, filename g = filename f ∧ (env.system (glslc env g)).2 ≠ none := by
  induction fs with
  | nil => intro d d1 _ f hf; exact absurd hf (List.not_mem_nil f)
  | cons g fs ih =>
    intro d d1 h f hf
    rw [compileAll] at h
    split at h
    · rename_i d2 hstep
      obtain ⟨name, spvBytes, body, _, _, hspv, _, hd2⟩ :=
        compileShader_next env metaOpen g d d2 hstep
      by_cases hout : (env.system (glslc env g)).2 = none
      · have hsame : spvWritten env g d = d := by
          unfold spvWritten; rw [hout]
        rcases List.mem_cons.1 hf with rfl | hf
        · left
          rw [hsame] at hspv
          rw [hspv]; rfl
        · rcases ih d2 d1 h f hf with h3 | ⟨k, hk, h3⟩
          · by_cases hfg : filename f = filename g
            · left
              rw [hsame] at hspv
              rw [hfg, hspv]; rfl
            · left
              rw [hd2, includeWritten_other _ _ _ _ _ (spv_ne_meta _),
                headerWritten_other _ _ _ _ _ _ _ (spv_ne_header _ _), hsame] at h3
              exact h3
          · exact Or.inr ⟨k, List.mem_cons_of_mem _ hk, h3⟩
      · rcases List.mem_cons.1 hf with rfl | hf
        · exact Or.inr ⟨f, List.mem_cons_self _ _, rfl, hout⟩
        · rcases ih d2 d1 h f hf with h3 | ⟨k, hk, h3⟩
          · by_cases hfg : filename f = filename g
            · exact Or.inr ⟨g, List.mem_cons_self _ _, hfg.symm, hout⟩
            · left
              have hne : filename f ++ ".spv".toList ≠ filename g ++ ".spv".toList :=
                fun he => hfg (List.append_cancel_right he)
              rw [hd2, includeWritten_other _ _ _ _ _ (spv_ne_meta _),
                headerWritten_other _ _ _ _ _ _ _ (spv_ne_header _ _),
                spvWritten_other _ _ _ _ hne] at h3
              exact h3
          · exact Or.inr ⟨k, List.mem_cons_of_mem _ hk, h3⟩
    · exact Step.noConfusion h
    · exact Step.noConfusion h

theorem shaderFiles_match (entries : List DirEntry) (f : List Char)
    (hf : f ∈ shaderFiles entries) : regex_match (filename f) = true := by
  unfold shaderFiles at hf
  rw [List.mem_map] at hf
  obtain ⟨e, he, rfl⟩ := hf
  rw [List.mem_filter] at he
  simp only [Bool.and_eq_true] at he
  exact he.2.2

theorem compileShader_succeeds (env : Env) (metaOpen : Bool) (f : List Char) (d : Dir)
    (hsmall : ∀ cmd bytes, (env.system cmd).2 = some bytes → bytes.length < UINT_RANGE)
    (hret : (env.system (glslc env f)).1 = 0)
    (hout : (env.system (glslc env f)).2 ≠ none)
    (hre : regex_match (filename f) = true)
    (hsize : env.fileSizeThrows (filename f ++ ".spv".toList) = false)
    (halloc : ∀ n, env.allocationThrows (filename f ++ ".spv".toList) n = false) :
    ∃ d1, compileShader env metaOpen f d = Step.next d1 := by
  obtain ⟨bytes, hb⟩ := Option.ne_none_iff_exists'.1 hout
  have hspv : spvWritten env f d (filename f ++ ".spv".toList) = some bytes := by
    unfold spvWritten
    rw [hb]
    exact writeFile_same _ _ _
  unfold compileShader
  rw [if_neg (not_not.2 hret), codeName_eq_replaceFirstDot _ (regex_match_has_dot _ hre)]
  simp only [hspv, hexEncode_eq bytes _ (hsmall _ _ hb) (Nat.lt_succ_self _), hsize, halloc,
    Bool.false_eq_true, or_self, if_false]
  exact ⟨_, rfl⟩

theorem compileAll_succeeds (env : Env) (metaOpen : Bool)
    (hsmall : ∀ cmd bytes, (env.system cmd).2 = some bytes → bytes.length < UINT_RANGE)
    (fs : List (List Char)) :
    ∀ d, (∀ f ∈ fs, (env.system (glslc env f)).1 = 0 ∧ (env.system (glslc env f)).2 ≠ none ∧
        regex_match (filename f) = true ∧
        env.fileSizeThrows (filename f ++ ".spv".toList) = false ∧
        ∀ n, env.allocationThrows (filename f ++ ".spv".toList) n = false) →
      ∃ d1, compileAll env metaOpen fs d = Step.next d1 := by
  induction fs with
  | nil => intro d _; exact ⟨d, by rw [compileAll]⟩
  | cons f fs ih =>
    intro d h
    obtain ⟨h1, h2, h3, h4, h5⟩ := h f (List.mem_cons_self _ _)
    obtain ⟨d1, hd1⟩ := compileShader_succeeds env metaOpen f d hsmall h1 h2 h3 h4 h5
    obtain ⟨d2, hd2⟩ := ih d1 (fun g hg => h g (List.mem_cons_of_mem _ hg))
    exact ⟨d2, by rw [compileAll, hd1]; exact hd2⟩

/-- A loop that reaches its end met no exception at lines 105-106. -/
theorem compileAll_no_throw (env : Env) (metaOpen : Bool) (fs : List (List Char)) :
    ∀ d d1, compileAll env metaOpen fs d = Step.next d1 →
      ∀ f ∈ fs, env.fileSizeThrows (filename f ++ ".spv".toList) = false ∧
        ∃ n, env.allocationThrows (filename f ++ ".spv".toList) n = false := by
  induction fs with
  | nil => intro d d1 _ f hf; exact absurd hf (List.not_mem_nil f)
  | cons g fs ih =>
    intro d d1 h f hf
    rw [compileAll] at h
    split at h
    · rename_i d2 hstep
      rcases List.mem_cons.1 hf with rfl | hf
      · obtain ⟨h1, spvBytes, _, h2⟩ := compileShader_no_throw env metaOpen f d d2 hstep
        exact ⟨h1, spvBytes.length, h2⟩
      · exact ih d2 d1 h f hf
    · exact Step.noConfusion h
    · exact Step.noConfusion h

/-- With compiler outputs shorter than `UINT_RANGE` the run ends. -/
theorem main_ends (env : Env) (prior : Option Dir)
    (hsmall : ∀ cmd bytes, (env.system cmd).2 = some bytes → bytes.length < UINT_RANGE) :
    ∃ r, main env prior = some r ∧ (r.exitCode = 0 ∨ r.exitCode = -1) := by
  unfold main
  split_ifs
  · exact ⟨_, rfl, Or.inr rfl⟩
  · exact ⟨_, rfl, Or.inr rfl⟩
  · exact ⟨_, rfl, Or.inr rfl⟩
  · unfold generate
    cases env.scan with
    | none => exact ⟨_, rfl, Or.inr rfl⟩
    | some entries =>
      simp only
      have := compileAll_ends env (env.ofstreamOpens metaName) hsmall (shaderFiles entries)
        (metaStarted env) (smallSpv_metaStarted env)
      split
      · exact ⟨_, rfl, Or.inl rfl⟩
      · exact ⟨_, rfl, Or.inr rfl⟩
      · rename_i hh
        exact absurd hh this

/-- A run hangs when the first selected shader compiles to `UINT_RANGE` bytes or
more: the encoding loop of its header never ends. -/
theorem main_hangs (env : Env) (prior : Option Dir) (entries : List DirEntry)
    (f : List Char) (fs : List (List Char)) (bytes : List Byte)
    (hargc : env.argc = 3) (hrem : ¬ (prior.isSome = true ∧ env.removeAllThrows = true))
    (hcreate : env.createDirectoryThrows = false) (hscan : env.scan = some entries)
    (hfiles : shaderFiles entries = f :: fs)
    (hret : (env.system (glslc env f)).1 = 0)
    (hout : (env.system (glslc env f)).2 = some bytes)
    (hsize : env.fileSizeThrows (filename f ++ ".spv".toList) = false)
    (halloc : env.allocationThrows (filename f ++ ".spv".toList) bytes.length = false)
    (hbig : UINT_RANGE ≤ bytes.length) : main env prior = none := by
  have hre : regex_match (filename f) = true :=
    shaderFiles_match entries f (by rw [hfiles]; exact List.mem_cons_self _ _)
  have hspv : ∀ d, spvWritten env f d (filename f ++ ".spv".toList) = some bytes := by
    intro d
    unfold spvWritten
    rw [hout]
    exact writeFile_same _ _ _
  have hstep : ∀ m d, compileShader env m f d = Step.hang := by
    intro m d
    unfold compileShader
    rw [if_neg (not_not.2 hret), codeName_eq_replaceFirstDot _ (regex_match_has_dot _ hre)]
    have hnone : hexEncode bytes (bytes.length + 1) = none :=
      hexLoop_wraps bytes hbig _ 0 [] (by decide)
    simp only [hspv, hnone, hsize, halloc, Bool.false_eq_true, or_self, if_false]
  unfold main
  rw [if_neg (not_not.2 hargc), if_neg hrem, if_neg (by rw [hcreate]; decide)]
  unfold generate
  rw [hscan]
  simp only [hfiles, compileAll, hstep]

/-- C7, as stated, fails, in two ways. In a run where no output stream opens,
so that neither a generated header nor `Shaders.h` is written, the tool still
returns 0. And in a run where the compiler writes 2^32 bytes for `a.vert` and
then returns a non-zero status for `a.frag`, the tool returns nothing at all:
the encoding loop for `a.vert` never ends. -/
theorem exit_codes_counterexample :
    ((main unwritableEnv none).map Result.exitCode = some 0 ∧
      (main unwritableEnv none).bind
          (fun r => r.outDir.bind (fun d => d "a.vert.spv.h".toList)) = none ∧
      (main unwritableEnv none).bind
          (fun r => r.outDir.bind (fun d => d "Shaders.h".toList)) = none) ∧
    (hugeEnv.scan.map shaderFiles = some ["shaders/a.vert".toList, "shaders/a.frag".toList] ∧
      (hugeEnv.system (glslc hugeEnv "shaders/a.frag".toList)).1 ≠ 0 ∧
      main hugeEnv none = none) := by
  refine ⟨by decide, by decide, by decide, ?_⟩
  exact main_hangs hugeEnv none
    [⟨"shaders/a.vert".toList, true⟩, ⟨"shaders/a.frag".toList, true⟩]
    "shaders/a.vert".toList ["shaders/a.frag".toList] (List.replicate 4294967296 0)
    (by decide) (by decide) (by decide) rfl (by decide) (by decide) rfl rfl rfl
    (by rw [List.length_replicate]; exact Nat.le_refl _)

/-- A loop that reaches its end could allocate, for every shader, a buffer of
the length of the SPV file it read: a file a compiler run of that name wrote,
or one that was there before. -/
theorem compileAll_read (env : Env) (metaOpen : Bool) (fs : List (List Char)) :
    ∀ d d1, compileAll env metaOpen fs d = Step.next d1 →
      ∀ f ∈ fs, ∃ bytes,
        env.allocationThrows (filename f ++ ".spv".toList) bytes.length = false ∧
        (d (filename f ++ ".spv".toList) = some bytes ∨
          ∃ g ∈ fs, filename g = filename f ∧ (env.system (glslc env g)).2 = some bytes) := by
  induction fs with
  | nil => intro d d1 _ f hf; exact absurd hf (List.not_mem_nil f)
  | cons g gs ih =>
    intro d d1 h f hf
    rw [compileAll] at h
    split at h
    · rename_i d2 hstep
      have hw : ∀ bytes, spvWritten env g d (filename g ++ ".spv".toList) = some bytes →
          d (filename g ++ ".spv".toList) = some bytes ∨
            (env.system (glslc env g)).2 = some bytes := by
        intro bytes hb
        unfold spvWritten at hb
        cases ho : (env.system (glslc env g)).2 with
        | none => rw [ho] at hb; exact Or.inl hb
        | some b =>
          rw [ho] at hb
          simp only at hb
          rw [writeFile_same] at hb
          exact Or.inr hb
      rcases List.mem_cons.1 hf with rfl | hf
      · obtain ⟨_, bytes, hb, halloc⟩ := compileShader_no_throw env metaOpen f d d2 hstep
        refine ⟨bytes, halloc, ?_⟩
        rcases hw bytes hb with h1 | h1
        · exact Or.inl h1
        · exact Or.inr ⟨f, List.mem_cons_self _ _, rfl, h1⟩
      · obtain ⟨bytes, halloc, h1 | ⟨k, hk, hname, hout⟩⟩ := ih d2 d1 h f hf
        · refine ⟨bytes, halloc, ?_⟩
          obtain ⟨name, spvBytes, body, _, _, _, _, hd2⟩ :=
            compileShader_next env metaOpen g d d2 hstep
          rw [hd2, includeWritten_other _ _ _ _ _ (spv_ne_meta _),
            headerWritten_other _ _ _ _ _ _ _ (spv_ne_header _ _)] at h1
          by_cases hfg : filename f = filename g
          · rw [hfg] at h1 ⊢
            rcases hw bytes h1 with h2 | h2
            · exact Or.inl h2
            · exact Or.inr ⟨g, List.mem_cons_self _ _, rfl, h2⟩
          · have hne : filename f ++ ".spv".toList ≠ filename g ++ ".spv".toList :=
              fun he => hfg (List.append_cancel_right he)
            rw [spvWritten_other _ _ _ _ hne] at h1
            exact Or.inl h1
        · exact ⟨bytes, halloc, Or.inr ⟨k, List.mem_cons_of_mem _ hk, hname, hout⟩⟩
    · exact Step.noConfusion h
    · exact Step.noConfusion h

/-- In the model, a run returns 0 when nothing fails: three arguments, no
exception from `remove_all`, `create_directory`, the scan, `file_size` or the
allocation of the buffer, and a compiler that returns 0 and writes its file
(of fewer than 2^32 bytes) for every selected shader; the output streams do not
matter. -/
theorem main_returns_zero (env : Env) (prior : Option Dir) (entries : List DirEntry)
    (hsmall : ∀ cmd bytes, (env.system cmd).2 = some bytes → bytes.length < UINT_RANGE)
    (hargc : env.argc = 3) (hrem : ¬ (prior.isSome = true ∧ env.removeAllThrows = true))
    (hcreate : env.createDirectoryThrows = false) (hscan : env.scan = some entries)
    (hall : ∀ f ∈ shaderFiles entries,
      (env.system (glslc env f)).1 = 0 ∧ (env.system (glslc env f)).2 ≠ none ∧
      env.fileSizeThrows (filename f ++ ".spv".toList) = false ∧
      ∀ n, env.allocationThrows (filename f ++ ".spv".toList) n = false) :
    (main env prior).map Result.exitCode = some 0 := by
  obtain ⟨d1, hd1⟩ := compileAll_succeeds env (env.ofstreamOpens metaName) hsmall
    (shaderFiles entries) (metaStarted env)
    (fun f hf => ⟨(hall f hf).1, (hall f hf).2.1, shaderFiles_match entries f hf,
      (hall f hf).2.2.1, (hall f hf).2.2.2⟩)
  unfold main
  rw [if_neg (not_not.2 hargc), if_neg hrem, if_neg (by rw [hcreate]; decide)]
  unfold generate
  rw [hscan]
  simp only [hd1, Option.map_some']

/-- C7, amended: a run whose compiler outputs are shorter than 2^32 bytes ends
and returns 0 or -1. It returns -1 when the argument count is not 3, when
`remove_all` or `create_directory` throws, when the directory scan throws,
when the compiler returns a non-zero status for a selected shader, when the
SPV file of a selected shader is missing (no compiler run wrote a file of that
name), so that it cannot be opened, and when `file_size` throws for the SPV
file of a selected shader or the allocation of the read buffer throws for the
length any compiler run gave that file. Hence it returns 0 only when none of
these occurred. -/
theorem exit_codes (env : Env) (prior : Option Dir)
    (hsmall : ∀ cmd bytes, (env.system cmd).2 = some bytes → bytes.length < UINT_RANGE) :
    ∃ r, main env prior = some r ∧
      (r.exitCode = 0 ∨ r.exitCode = -1) ∧
      (env.argc ≠ 3 → r.exitCode = -1) ∧
      (prior.isSome = true → env.removeAllThrows = true → r.exitCode = -1) ∧
      (env.createDirectoryThrows = true → r.exitCode = -1) ∧
      (env.scan = none → r.exitCode = -1) ∧
      (∀ entries, env.scan = some entries → ∀ f ∈ shaderFiles entries,
        (env.system (glslc env f)).1 ≠ 0 → r.exitCode = -1) ∧
      (∀ entries, env.scan = some entries → ∀ f ∈ shaderFiles entries,
        (∀ g ∈ shaderFiles entries, filename g = filename f →
          (env.system (glslc env g)).2 = none) → r.exitCode = -1) ∧
      (∀ entries, env.scan = some entries → ∀ f ∈ shaderFiles entries,
        env.fileSizeThrows (filename f ++ ".spv".toList) = true → r.exitCode = -1) ∧
      (∀ entries, env.scan = some entries → ∀ f ∈ shaderFiles entries,
        (∀ g ∈ shaderFiles entries, filename g = filename f →
          ∀ bytes, (env.system (glslc env g)).2 = some bytes →
            env.allocationThrows (filename f ++ ".spv".toList) bytes.length = true) →
          r.exitCode = -1) := by
  obtain ⟨r, hr, hcode⟩ := main_ends env prior hsmall
  -- what a return value of 0 implies
  have hzero : r.exitCode = 0 → ∃ entries d, env.scan = some entries ∧
      compileAll env (env.ofstreamOpens metaName) (shaderFiles entries) (metaStarted env)
        = Step.next d ∧
      env.argc = 3 ∧ ¬ (prior.isSome ∧ env.removeAllThrows = true) ∧
      env.createDirectoryThrows = false := by
    intro h0
    obtain ⟨entries, d, h1, h2, _, h3⟩ :=
      main_success env prior (by rw [hr]; exact congrArg some h0)
    exact ⟨entries, d, h1, h2, h3⟩
  have hneg : ∀ p : Prop, (r.exitCode = 0 → ¬ p) → p → r.exitCode = -1 := by
    intro p hp h
    rcases hcode with h0 | h1
    · exact absurd h (hp h0)
    · exact h1
  refine ⟨r, hr, hcode, ?_, ?_, ?_, ?_, ?_, ?_, ?_, ?_⟩
  · apply hneg
    intro h0 hne
    obtain ⟨_, _, _, _, h3, _⟩ := hzero h0
    exact hne h3
  · intro hp
    apply hneg
    intro h0 hthrow
    obtain ⟨_, _, _, _, _, h4, _⟩ := hzero h0
    exact h4 ⟨hp, hthrow⟩
  · apply hneg
    intro h0 hthrow
    obtain ⟨_, _, _, _, _, _, h5⟩ := hzero h0
    rw [h5] at hthrow
    exact Bool.noConfusion hthrow
  · apply hneg
    intro h0 hnone
    obtain ⟨_, _, h1, _⟩ := hzero h0
    rw [hnone] at h1
    exact Option.noConfusion h1
  · intro entries hscan f hf
    apply hneg
    intro h0 hret
    obtain ⟨entries1, d, h1, h2, _⟩ := hzero h0
    rw [hscan] at h1
    rw [← Option.some.inj h1] at h2
    exact hret (compileAll_ret env _ _ _ _ h2 f hf)
  · intro entries hscan f hf
    apply hneg
    intro h0 hmissing
    obtain ⟨entries1, d, h1, h2, _⟩ := hzero h0
    rw [hscan] at h1
    rw [← Option.some.inj h1] at h2
    rcases compileAll_spv env _ _ _ _ h2 f hf with h3 | ⟨g, hg, hname, hout⟩
    · exact spv_ne_meta _ (metaStarted_names env _ h3)
    · exact hout (hmissing g hg hname)
  · intro entries hscan f hf
    apply hneg
    intro h0 hthrow
    obtain ⟨entries1, d, h1, h2, _⟩ := hzero h0
    rw [hscan] at h1
    rw [← Option.some.inj h1] at h2
    rw [(compileAll_no_throw env _ _ _ _ h2 f hf).1] at hthrow
    exact Bool.noConfusion hthrow
  · intro entries hscan f hf
    apply hneg
    intro h0 hthrow
    obtain ⟨entries1, d, h1, h2, _⟩ := hzero h0
    rw [hscan] at h1
    rw [← Option.some.inj h1] at h2
    obtain ⟨bytes, hn, h3 | ⟨g, hg, hname, hout⟩⟩ := compileAll_read env _ _ _ _ h2 f hf
    · exact spv_ne_meta _ (metaStarted_names env _ (by rw [h3]; rfl))
    · rw [hthrow g hg hname bytes hout] at hn
      exact Bool.noConfusion hn

/-- The exit codes evaluated on variants of the run on `a.vert` and `a.frag`:
0 as it is; -1 with two arguments, with a directory that cannot be created,
with a scan that throws, with a compiler that returns 1, with a compiler that
returns 0 and writes no file, with a throwing `file_size`, and with a throwing
allocation of the read buffer. -/
theorem exit_codes_examples :
    (main exampleEnv none).map Result.exitCode = some 0 ∧
      (main { exampleEnv with argc := 2 } none).map Result.exitCode = some (-1) ∧
      (main { exampleEnv with createDirectoryThrows := true } none).map Result.exitCode
        = some (-1) ∧
      (main { exampleEnv with scan := none } none).map Result.exitCode = some (-1) ∧
      (main { exampleEnv with system := fun _ => (1, none) } none).map Result.exitCode
        = some (-1) ∧
      (main { exampleEnv with system := fun _ => (0, none) } none).map Result.exitCode
        = some (-1) ∧
      (main { exampleEnv with fileSizeThrows := fun _ => true } none).map Result.exitCode
        = some (-1) ∧
      (main { exampleEnv with allocationThrows := fun _ _ => true } none).map Result.exitCode
        = some (-1) := by
  decide

/-- Witness of `exit_codes`: the run on `a.vert` and `a.frag`. -/
theorem exit_codes_witness :
    ∃ r, main exampleEnv none = some r ∧
      (r.exitCode = 0 ∨ r.exitCode = -1) ∧
      (exampleEnv.argc ≠ 3 → r.exitCode = -1) ∧
      ((none : Option Dir).isSome = true → exampleEnv.removeAllThrows = true →
        r.exitCode = -1) ∧
      (exampleEnv.createDirectoryThrows = true → r.exitCode = -1) ∧
      (exampleEnv.scan = none → r.exitCode = -1) ∧
      (∀ entries, exampleEnv.scan = some entries → ∀ f ∈ shaderFiles entries,
        (exampleEnv.system (glslc exampleEnv f)).1 ≠ 0 → r.exitCode = -1) ∧
      (∀ entries, exampleEnv.scan = some entries → ∀ f ∈ shaderFiles entries,
        (∀ g ∈ shaderFiles entries, filename g = filename f →
          (exampleEnv.system (glslc exampleEnv g)).2 = none) → r.exitCode = -1) ∧
      (∀ entries, exampleEnv.scan = some entries → ∀ f ∈ shaderFiles entries,
        exampleEnv.fileSizeThrows (filename f ++ ".spv".toList) = true → r.exitCode = -1) ∧
      (∀ entries, exampleEnv.scan = some entries → ∀ f ∈ shaderFiles entries,
        (∀ g ∈ shaderFiles entries, filename g = filename f →
          ∀ bytes, (exampleEnv.system (glslc exampleEnv g)).2 = some bytes →
            exampleEnv.allocationThrows (filename f ++ ".spv".toList) bytes.length = true) →
          r.exitCode = -1) :=
  exit_codes exampleEnv none (by
    intro cmd bytes h
    unfold exampleEnv at h
    simp only at h
    split_ifs at h <;>
      · rw [← Option.some.inj h]
        decide)

/-! ### The parts of a generated header -/

theorem headerText_parts (shaderName now name : List Char) (spvLength : Nat)
    (body : List Char) :
    headerText shaderName now name spvLength body
      = headerIntro shaderName now ++ (arrayText name body ++ lengthText name spvLength)
          ++ headerOutro := by
  unfold headerText headerIntro arrayText lengthText headerOutro
  simp only [List.append_assoc]

theorem headerBlock_eq (shaderName now : List Char) (spvBytes : List Byte) :
    headerBlock shaderName now spvBytes
      = (arrayAndLength shaderName spvBytes).map
          (fun core => headerIntro shaderName now ++ core ++ headerOutro) := by
  unfold headerBlock arrayAndLength
  cases codeName shaderName with
  | none => rfl
  | some name =>
    cases hexEncode spvBytes (spvBytes.length + 1) with
    | none => rfl
    | some body => simp only [Option.map_some', headerText_parts]

/-- What a pass that reaches the end of the loop body leaves in the header
file: what the file held, followed by the block of this shader. -/
theorem compileShader_header (env : Env) (metaOpen : Bool) (f : List Char) (d d1 : Dir)
    (h : compileShader env metaOpen f d = Step.next d1) :
    ∃ spvBytes block,
      d1 (filename f ++ ".spv".toList) = some spvBytes ∧
      headerBlock (filename f) env.now spvBytes = some block ∧
      d1 (filename f ++ ".spv.h".toList)
        = if env.ofstreamOpens (filename f ++ ".spv.h".toList) = true then
            some ((d (filename f ++ ".spv.h".toList)).getD [] ++ toBytes block)
          else d (filename f ++ ".spv.h".toList) := by
  obtain ⟨name, spvBytes, body, _, hname, hspv, hbody, rfl⟩ :=
    compileShader_next env metaOpen f d d1 h
  refine ⟨spvBytes, headerText (filename f) env.now name spvBytes.length body, ?_, ?_, ?_⟩
  · rw [includeWritten_other _ _ _ _ _ (spv_ne_meta _),
      headerWritten_other _ _ _ _ _ _ _ (spv_ne_header _ _), hspv]
  · unfold headerBlock
    rw [hname]
    simp only [hbody]
  · rw [includeWritten_other _ _ _ _ _ (header_ne_meta _)]
    unfold headerWritten
    split_ifs with ho
    · unfold appendFile
      rw [writeFile_same, spvWritten_other _ _ _ _ (spv_ne_header _ _).symm]
    · exact spvWritten_other _ _ _ _ (spv_ne_header _ _).symm

/-! ### The length constant -/

theorem digitValue_digitChar (k : Fin 10) : digitValue (Nat.digitChar k.val) = some k.val := by
  revert k; decide

theorem readDecimalFrom_append (xs ys : List Char) :
    ∀ acc, readDecimalFrom acc (xs ++ ys)
      = (readDecimalFrom acc xs).bind (fun v => readDecimalFrom v ys) := by
  induction xs with
  | nil => intro acc; rfl
  | cons c cs ih =>
    intro acc
    simp only [List.cons_append, readDecimalFrom]
    cases digitValue c with
    | none => rfl
    | some d => exact ih _

/-- The digits `Nat.toDigitsCore` puts in front of `ds` read back as `n`. -/
theorem toDigitsCore_read (fuel : Nat) :
    ∀ (n : Nat) (ds : List Char), n < fuel →
      ∃ xs, Nat.toDigitsCore 10 fuel n ds = xs ++ ds ∧ xs ≠ [] ∧
        readDecimalFrom 0 xs = some n := by
  induction fuel with
  | zero => intro n ds h; omega
  | succ fuel ih =>
    intro n ds h
    have hd : digitValue (Nat.digitChar (n % 10)) = some (n % 10) :=
      digitValue_digitChar ⟨n % 10, by omega⟩
    rw [Nat.toDigitsCore]
    by_cases h0 : n / 10 = 0
    · rw [if_pos h0]
      refine ⟨[Nat.digitChar (n % 10)], rfl, by simp, ?_⟩
      simp only [readDecimalFrom, hd]
      congr 1
      omega
    · rw [if_neg h0]
      obtain ⟨xs, hxs, _, hread⟩ := ih (n / 10) (Nat.digitChar (n % 10) :: ds) (by omega)
      refine ⟨xs ++ [Nat.digitChar (n % 10)], ?_, by simp, ?_⟩
      · rw [hxs, List.append_assoc]; rfl
      · rw [readDecimalFrom_append, hread]
        simp only [Option.some_bind, readDecimalFrom, hd]
        congr 1
        omega

theorem readDecimal_toDigits (n : Nat) : readDecimal (Nat.toDigits 10 n) = some n := by
  obtain ⟨xs, hxs, hne, hread⟩ := toDigitsCore_read (n + 1) n [] (Nat.lt_succ_self n)
  unfold Nat.toDigits
  rw [hxs, List.append_nil]
  cases xs with
  | nil => exact absurd rfl hne
  | cons c cs => exact hread

/-- An SPV file of `UINT_RANGE` bytes or more gets no header block: the encoding
loop never ends. -/
theorem headerBlock_large (shaderName now : List Char) (spvBytes : List Byte)
    (hbig : UINT_RANGE ≤ spvBytes.length) : headerBlock shaderName now spvBytes = none := by
  have hnone : hexEncode spvBytes (spvBytes.length + 1) = none :=
    hexLoop_wraps spvBytes hbig _ 0 [] (by decide)
  unfold headerBlock
  rw [hnone]
  cases codeName shaderName <;> rfl

/-- C13, as stated, fails: for an SPV file of 4294967296 bytes no header block
is ever complete, at whatever time the run is made: the encoding loop never
ends, tokens keep being written and no length constant is. -/
theorem no_length_constant_at_uint_range :
    ¬ ∃ (now block : List Char),
        headerBlock "a.vert".toList now (List.replicate 4294967296 (0 : Byte)) = some block := by
  rintro ⟨now, block, h⟩
  have hnone := headerBlock_large "a.vert".toList now (List.replicate 4294967296 (0 : Byte))
    (by rw [List.length_replicate]; exact Nat.le_refl _)
  exact Option.noConfusion (hnone.symm.trans h)

/-- C13, amended: for every SPV byte sequence of length `n < 2^32` and every
shader file name the scan accepts, the pass writes a header block made of the
intro, the array definition, the length constant and the outro; the text
written as the value of `<name>_spv_len` is the decimal literal of `n`, and
the array initializer holds exactly `n` byte tokens. -/
theorem length_constant_agrees (shaderName now : List Char) (spvBytes : List Byte)
    (hmatch : regex_match shaderName = true) (hlen : spvBytes.length < UINT_RANGE) :
    ∃ name body tokens,
      codeName shaderName = some name ∧
      hexEncode spvBytes (spvBytes.length + 1) = some body ∧
      headerBlock shaderName now spvBytes
        = some (headerIntro shaderName now ++
            (arrayText name body ++ lengthText name spvBytes.length) ++ headerOutro) ∧
      lengthText name spvBytes.length
        = "constexpr static unsigned int ".toList ++ (name ++ "_spv_len".toList) ++
            " = ".toList ++ Nat.toDigits 10 spvBytes.length ++ ";\n".toList ∧
      readDecimal (Nat.toDigits 10 spvBytes.length) = some spvBytes.length ∧
      decodeTokens body = some tokens ∧
      tokens.length = spvBytes.length := by
  have hname := codeName_eq_replaceFirstDot shaderName (regex_match_has_dot shaderName hmatch)
  have hbody := hexEncode_eq spvBytes (spvBytes.length + 1) hlen (Nat.lt_succ_self _)
  refine ⟨_, _, spvBytes.map Fin.val, hname, hbody, ?_, ?_, readDecimal_toDigits _, ?_, ?_⟩
  · unfold headerBlock
    rw [hname]
    simp only [hbody, headerText_parts]
  · unfold lengthText lengthName
    simp
  · rw [decodeTokens_flatMap, ← map_getD_range spvBytes, List.map_map, map_getD_range]
    rfl
  · exact List.length_map _ _

/-- Witness of `length_constant_agrees`: `a.vert` with three bytes. -/
theorem length_constant_agrees_witness :
    ∃ name body tokens,
      codeName "a.vert".toList = some name ∧
      hexEncode [1, 2, 3] (([1, 2, 3] : List Byte).length + 1) = some body ∧
      headerBlock "a.vert".toList "2024-01-01 00:00:00".toList [1, 2, 3]
        = some (headerIntro "a.vert".toList "2024-01-01 00:00:00".toList ++
            (arrayText name body ++ lengthText name ([1, 2, 3] : List Byte).length) ++
            headerOutro) ∧
      lengthText name ([1, 2, 3] : List Byte).length
        = "constexpr static unsigned int ".toList ++ (name ++ "_spv_len".toList) ++
            " = ".toList ++ Nat.toDigits 10 ([1, 2, 3] : List Byte).length ++ ";\n".toList ∧
      readDecimal (Nat.toDigits 10 ([1, 2, 3] : List Byte).length)
        = some ([1, 2, 3] : List Byte).length ∧
      decodeTokens body = some tokens ∧
      tokens.length = ([1, 2, 3] : List Byte).length :=
  length_constant_agrees "a.vert".toList "2024-01-01 00:00:00".toList [1, 2, 3]
    (by decide) (by decide)

set_option maxRecDepth 100000 in
/-- The block of C13 evaluated for `a.vert` with three bytes. -/
theorem length_constant_example :
    headerBlock "a.vert".toList "2024-01-01 00:00:00".toList [1, 2, 3]
      = some "// Shader: a.vert\n// Generated by ShaderCompiler\n// 2024-01-01 00:00:00\n\n#pragma once\n\nnamespace drive\n\x7b\nconstexpr static unsigned char a_vert_spv[] = \x7b\n    0x01, 0x02, 0x03\n\x7d;\nconstexpr static unsigned int a_vert_spv_len = 3;\n\x7d; // namespace drive\n".toList := by
  decide

/-! ### Determinism of the generated header -/

/-- C11: the header block a pass writes is the intro (which carries the time of
the run), then the byte-array definition and the length constant, then the
outro, and the middle part is `arrayAndLength`, a function of the shader file
name and the SPV bytes alone. Hence two passes on the same file name and the
same bytes, in whatever environments and at whatever times, append to their
header files blocks with one and the same array and length text. -/
theorem header_determinism (shaderName : List Char) (spvBytes : List Byte)
    (now1 now2 : List Char) :
    headerBlock shaderName now1 spvBytes
        = (arrayAndLength shaderName spvBytes).map
            (fun core => headerIntro shaderName now1 ++ core ++ headerOutro) ∧
      headerBlock shaderName now2 spvBytes
        = (arrayAndLength shaderName spvBytes).map
            (fun core => headerIntro shaderName now2 ++ core ++ headerOutro) ∧
      (∀ (env1 env2 : Env) (m1 m2 : Bool) (f1 f2 : List Char) (d1 d2 e1 e2 : Dir),
        filename f1 = shaderName → filename f2 = shaderName →
        compileShader env1 m1 f1 d1 = Step.next e1 →
        compileShader env2 m2 f2 d2 = Step.next e2 →
        e1 (shaderName ++ ".spv".toList) = some spvBytes →
        e2 (shaderName ++ ".spv".toList) = some spvBytes →
        env1.ofstreamOpens (shaderName ++ ".spv.h".toList) = true →
        env2.ofstreamOpens (shaderName ++ ".spv.h".toList) = true →
        ∃ core, arrayAndLength shaderName spvBytes = some core ∧
          e1 (shaderName ++ ".spv.h".toList)
            = some ((d1 (shaderName ++ ".spv.h".toList)).getD [] ++
                toBytes (headerIntro shaderName env1.now ++ core ++ headerOutro)) ∧
          e2 (shaderName ++ ".spv.h".toList)
            = some ((d2 (shaderName ++ ".spv.h".toList)).getD [] ++
                toBytes (headerIntro shaderName env2.now ++ core ++ headerOutro))) := by
  refine ⟨headerBlock_eq _ _ _, headerBlock_eq _ _ _, ?_⟩
  intro env1 env2 m1 m2 f1 f2 d1 d2 e1 e2 hf1 hf2 h1 h2 hs1 hs2 ho1 ho2
  obtain ⟨b1, block1, hb1, hblock1, hh1⟩ := compileShader_header env1 m1 f1 d1 e1 h1
  obtain ⟨b2, block2, hb2, hblock2, hh2⟩ := compileShader_header env2 m2 f2 d2 e2 h2
  rw [hf1] at hb1 hblock1 hh1
  rw [hf2] at hb2 hblock2 hh2
  rw [hs1] at hb1
  rw [hs2] at hb2
  rw [← Option.some.inj hb1, headerBlock_eq] at hblock1
  rw [← Option.some.inj hb2, headerBlock_eq] at hblock2
  cases hcore : arrayAndLength shaderName spvBytes with
  | none => rw [hcore] at hblock1; exact Option.noConfusion hblock1
  | some core =>
    rw [hcore] at hblock1 hblock2
    simp only [Option.map_some', Option.some.injEq] at hblock1 hblock2
    refine ⟨core, rfl, ?_, ?_⟩
    · rw [hh1, if_pos ho1, hblock1]
    · rw [hh2, if_pos ho2, hblock2]

set_option maxRecDepth 100000 in
/-- The scenario of C11 evaluated: the runs `exampleEnv` and `laterEnv` differ
in their time only, and their headers for `a.vert` differ in the banner only. -/
theorem header_determinism_example :
    arrayAndLength "a.vert".toList [1, 2, 3]
        = some "constexpr static unsigned char a_vert_spv[] = \x7b\n    0x01, 0x02, 0x03\n\x7d;\nconstexpr static unsigned int a_vert_spv_len = 3;\n".toList ∧
      fileAfter exampleEnv none "a.vert.spv.h".toList
        = (arrayAndLength "a.vert".toList [1, 2, 3]).map (fun core =>
            toBytes (headerIntro "a.vert".toList "2024-01-01 00:00:00".toList ++ core ++
              headerOutro)) ∧
      fileAfter laterEnv none "a.vert.spv.h".toList
        = (arrayAndLength "a.vert".toList [1, 2, 3]).map (fun core =>
            toBytes (headerIntro "a.vert".toList "2024-01-01 00:00:01".toList ++ core ++
              headerOutro)) := by
  decide

/-! ### File selection -/

theorem matchExtension_iff (s : List Char) :
    matchExtension s = true ↔ s = ".frag".toList ∨ s = ".vert".toList := by
  unfold matchExtension
  simp only [Bool.or_eq_true, beq_iff_eq]
  rfl

theorem regexDot_iff (c : Char) : regexDot c = true ↔ c ≠ '\n' ∧ c ≠ '\r' := by
  unfold regexDot
  simp

/-- The names the pattern `.*\.(frag|vert)` matches: a stem free of line
terminators followed by `.frag` or `.vert`. -/
theorem regex_match_iff (name : List Char) :
    regex_match name = true ↔
      ∃ stem, (name = stem ++ ".frag".toList ∨ name = stem ++ ".vert".toList) ∧
        ∀ c ∈ stem, c ≠ '\n' ∧ c ≠ '\r' := by
  induction name with
  | nil =>
    constructor
    · intro h; simp [regex_match, matchExtension] at h
    · rintro ⟨stem, h | h, _⟩ <;> simp at h
  | cons c cs ih =>
    rw [regex_match]
    simp only [Bool.or_eq_true, Bool.and_eq_true, matchExtension_iff, regexDot_iff, ih]
    constructor
    · rintro (h | ⟨hc, stem, h, hstem⟩)
      · exact ⟨[], by simpa using h, by simp⟩
      · refine ⟨c :: stem, ?_, ?_⟩
        · rcases h with h | h
          · exact Or.inl (by rw [h]; rfl)
          · exact Or.inr (by rw [h]; rfl)
        · intro x hx
          rcases List.mem_cons.1 hx with rfl | hx
          · exact hc
          · exact hstem x hx
    · rintro ⟨stem, h, hstem⟩
      cases stem with
      | nil => exact Or.inl (by simpa using h)
      | cons x xs =>
        right
        have hx : x = c ∧ (cs = xs ++ ".frag".toList ∨ cs = xs ++ ".vert".toList) := by
          rcases h with h | h
          · rw [List.cons_append] at h
            exact ⟨(List.cons.inj h).1.symm, Or.inl (List.cons.inj h).2⟩
          · rw [List.cons_append] at h
            exact ⟨(List.cons.inj h).1.symm, Or.inr (List.cons.inj h).2⟩
        obtain ⟨rfl, hcs⟩ := hx
        exact ⟨hstem x (List.mem_cons_self _ _), xs, hcs,
          fun y hy => hstem y (List.mem_cons_of_mem _ hy)⟩

/-- C12, as stated, fails: the regular file `a<LF>b.vert`, whose name ends with
`.vert`, is not selected, because `.` of the pattern matches no line
terminator. -/
theorem line_terminator_name_not_selected :
    ".vert".toList <:+ "a\nb.vert".toList ∧
      filename "shaders/a\nb.vert".toList = "a\nb.vert".toList ∧
      regex_match "a\nb.vert".toList = false ∧
      shaderFiles [⟨"shaders/a\nb.vert".toList, true⟩] = [] := by
  refine ⟨⟨"a\nb".toList, rfl⟩, by decide, by decide, by decide⟩

/-- C12, amended: an entry of the scan is selected for compilation if and only
if it is a regular file and its file name is a stem without line terminator
(`\n`, `\r`) followed by `.frag` or `.vert`, so that the whole name ends with
the extension; the selected paths keep the scan order; `a.vert.bak`,
`a.frag.spv` and entries that are not regular files are not selected. -/
theorem file_selection (entries : List DirEntry) (path : List Char) :
    (path ∈ shaderFiles entries ↔
      ∃ e ∈ entries, e.path = path ∧ e.isRegularFile = true ∧
        ∃ stem, (filename path = stem ++ ".frag".toList ∨
            filename path = stem ++ ".vert".toList) ∧
          ∀ c ∈ stem, c ≠ '\n' ∧ c ≠ '\r') ∧
    (shaderFiles entries).Sublist (entries.map DirEntry.path) ∧
    (∀ name : List Char, regex_match name = true →
      ".frag".toList <:+ name ∨ ".vert".toList <:+ name) ∧
    regex_match "a.vert".toList = true ∧
    regex_match "a.frag".toList = true ∧
    regex_match "a.vert.bak".toList = false ∧
    regex_match "a.frag.spv".toList = false ∧
    shaderFiles [⟨"shaders/a.vert".toList, false⟩] = [] := by
  refine ⟨?_, ?_, ?_, by decide, by decide, by decide, by decide, by decide⟩
  · unfold shaderFiles
    simp only [List.mem_map, List.mem_filter, Bool.and_eq_true]
    constructor
    · rintro ⟨e, ⟨he, hreg, hm⟩, rfl⟩
      exact ⟨e, he, rfl, hreg, (regex_match_iff _).1 hm⟩
    · rintro ⟨e, he, rfl, hreg, hm⟩
      exact ⟨e, ⟨he, hreg, (regex_match_iff _).2 hm⟩, rfl⟩
  · unfold shaderFiles
    exact (List.filter_sublist _).map _
  · intro name h
    obtain ⟨stem, h | h, _⟩ := (regex_match_iff name).1 h
    · exact Or.inl ⟨stem, h.symm⟩
    · exact Or.inr ⟨stem, h.symm⟩

/-! ### Shader files of the same name -/

set_option maxRecDepth 1000000 in
/-- C14: evaluation of the code at the failing input. With `a/x.vert` and
`b/x.vert` in the source directory the run returns 0; `x.vert.spv.h` holds the
block of the first file followed by the block of the second (the block of the
bytes left in `x.vert.spv` by the second compiler run), hence two byte-array
definitions and two length constants of the same names; and `Shaders.h`
includes `x.vert.spv.h` twice. -/
theorem duplicate_names_collide :
    (duplicateEnv.scan.map shaderFiles
        = some ["shaders/a/x.vert".toList, "shaders/b/x.vert".toList]) ∧
      (main duplicateEnv none).map Result.exitCode = some 0 ∧
      fileAfter duplicateEnv none "x.vert.spv.h".toList
        = (headerBlock "x.vert".toList duplicateEnv.now [1, 2, 3]).bind (fun first =>
            (headerBlock "x.vert".toList duplicateEnv.now [255]).map (fun second =>
              toBytes (first ++ second))) ∧
      (fileAfter duplicateEnv none "x.vert.spv.h".toList).map
          (occurrences (toBytes "constexpr static unsigned char x_vert_spv[]".toList))
        = some 2 ∧
      (fileAfter duplicateEnv none "x.vert.spv.h".toList).map
          (occurrences (toBytes "constexpr static unsigned int x_vert_spv_len".toList))
        = some 2 ∧
      fileAfter duplicateEnv none "Shaders.h".toList
        = some (toBytes ("// Generated by ShaderCompiler\n// 2024-01-01 00:00:00\n\n#pragma once\n\n#include \"x.vert.spv.h\"\n#include \"x.vert.spv.h\"\n".toList)) := by
  decide

theorem compileShader_untouched (env : Env) (metaOpen : Bool) (f : List Char) (d e : Dir)
    (h : compileShader env metaOpen f d = Step.next e) (n : List Char)
    (h1 : n ≠ metaName) (h2 : n ≠ filename f ++ ".spv".toList)
    (h3 : n ≠ filename f ++ ".spv.h".toList) : e n = d n := by
  obtain ⟨name, spvBytes, body, _, _, _, _, rfl⟩ := compileShader_next env metaOpen f d e h
  rw [includeWritten_other _ _ _ _ _ h1, headerWritten_other _ _ _ _ _ _ _ h3,
    spvWritten_other _ _ _ _ h2]

theorem compileAll_untouched (env : Env) (metaOpen : Bool) (fs : List (List Char)) :
    ∀ (d e : Dir), compileAll env metaOpen fs d = Step.next e →
      ∀ n, n ≠ metaName →
        (∀ g ∈ fs, n ≠ filename g ++ ".spv".toList ∧ n ≠ filename g ++ ".spv.h".toList) →
        e n = d n := by
  induction fs with
  | nil =>
    intro d e h n _ _
    rw [compileAll] at h
    rw [← Step.next.inj h]
  | cons g gs ih =>
    intro d e h n h1 h2
    rw [compileAll] at h
    split at h
    · rename_i d2 hstep
      rw [ih d2 e h n h1 (fun k hk => h2 k (List.mem_cons_of_mem _ hk))]
      exact compileShader_untouched env metaOpen g d d2 hstep n h1
        (h2 g (List.mem_cons_self _ _)).1 (h2 g (List.mem_cons_self _ _)).2
    · exact Step.noConfusion h
    · exact Step.noConfusion h

theorem names_apart (a b : List Char) (h : a ≠ b) :
    a ++ ".spv".toList ≠ b ++ ".spv".toList ∧ a ++ ".spv.h".toList ≠ b ++ ".spv.h".toList :=
  ⟨fun he => h (List.append_cancel_right he), fun he => h (List.append_cancel_right he)⟩

/-- With pairwise distinct file names and header files that do not exist yet, a
loop that reaches its end leaves one block in the header of every shader: the
block of the bytes its SPV file holds. -/
theorem compileAll_blocks (env : Env) (metaOpen : Bool)
    (hopen : ∀ n, env.ofstreamOpens n = true) (fs : List (List Char)) :
    ∀ (d e : Dir), (fs.map filename).Nodup →
      (∀ g ∈ fs, d (filename g ++ ".spv.h".toList) = none) →
      compileAll env metaOpen fs d = Step.next e →
      ∀ f ∈ fs, ∃ spvBytes block,
        e (filename f ++ ".spv".toList) = some spvBytes ∧
        headerBlock (filename f) env.now spvBytes = some block ∧
        e (filename f ++ ".spv.h".toList) = some (toBytes block) := by
  induction fs with
  | nil => intro d e _ _ _ f hf; exact absurd hf (List.not_mem_nil f)
  | cons g gs ih =>
    intro d e hnodup hfresh h f hf
    rw [List.map_cons, List.nodup_cons] at hnodup
    have hdiff : ∀ k ∈ gs, filename g ≠ filename k := by
      intro k hk he
      exact hnodup.1 (he ▸ List.mem_map_of_mem filename hk)
    rw [compileAll] at h
    split at h
    · rename_i d2 hstep
      rcases List.mem_cons.1 hf with rfl | hf
      · obtain ⟨spvBytes, block, hspv, hblock, hhdr⟩ :=
          compileShader_header env metaOpen f d d2 hstep
        rw [if_pos (hopen _), hfresh f (List.mem_cons_self _ _)] at hhdr
        refine ⟨spvBytes, block, ?_, hblock, ?_⟩
        · rw [compileAll_untouched env metaOpen gs d2 e h _ (spv_ne_meta _)
            (fun k hk => ⟨(names_apart _ _ (hdiff k hk)).1, spv_ne_header _ _⟩)]
          exact hspv
        · rw [compileAll_untouched env metaOpen gs d2 e h _ (header_ne_meta _)
            (fun k hk => ⟨(spv_ne_header _ _).symm, (names_apart _ _ (hdiff k hk)).2⟩)]
          simpa using hhdr
      · refine ih d2 e hnodup.2 ?_ h f hf
        intro k hk
        rw [compileShader_untouched env metaOpen g d d2 hstep _ (header_ne_meta _)
          (spv_ne_header _ _).symm (names_apart _ _ (hdiff k hk).symm).2]
        exact hfresh k (List.mem_cons_of_mem _ hk)
    · exact Step.noConfusion h
    · exact Step.noConfusion h

/-- Where the claim of one definition per header does hold: in a successful run
whose selected files have pairwise distinct file names and whose output
streams opened, the header of every selected file holds exactly the one block
of that file, and no two include lines of `Shaders.h` name the same header. -/
theorem one_block_per_header (env : Env) (prior : Option Dir)
    (hok : (main env prior).map Result.exitCode = some 0)
    (hopen : ∀ n, env.ofstreamOpens n = true)
    (hdistinct : (((env.scan.map shaderFiles).getD []).map filename).Nodup) :
    (∀ f ∈ (env.scan.map shaderFiles).getD [], ∃ spvBytes block,
        fileAfter env prior (filename f ++ ".spv".toList) = some spvBytes ∧
        headerBlock (filename f) env.now spvBytes = some block ∧
        fileAfter env prior (filename f ++ ".spv.h".toList) = some (toBytes block)) ∧
      (((env.scan.map shaderFiles).getD []).map
        (fun f => filename f ++ ".spv.h".toList)).Nodup := by
  obtain ⟨entries, d, hscan, hall, hmain, _⟩ := main_success env prior hok
  rw [hscan] at hdistinct ⊢
  simp only [Option.map_some', Option.getD_some] at hdistinct ⊢
  constructor
  · intro f hf
    have hfresh : ∀ g ∈ shaderFiles entries,
        metaStarted env (filename g ++ ".spv.h".toList) = none := by
      intro g _
      cases hm : metaStarted env (filename g ++ ".spv.h".toList) with
      | none => rfl
      | some x =>
        exact absurd (metaStarted_names env _ (by rw [hm]; rfl)) (header_ne_meta _)
    obtain ⟨spvBytes, block, h1, h2, h3⟩ :=
      compileAll_blocks env _ hopen _ _ _ hdistinct hfresh hall f hf
    refine ⟨spvBytes, block, ?_, h2, ?_⟩
    · unfold fileAfter; rw [hmain]; exact h1
    · unfold fileAfter; rw [hmain]; exact h3
  · have : (shaderFiles entries).map (fun f => filename f ++ ".spv.h".toList)
        = ((shaderFiles entries).map filename).map (fun n => n ++ ".spv.h".toList) := by
      rw [List.map_map]; rfl
    rw [this]
    exact hdistinct.map (fun a b he => List.append_cancel_right he)

/-- Witness of `one_block_per_header`: the run on `a.vert` and `a.frag`. -/
theorem one_block_per_header_witness :
    (∀ f ∈ (exampleEnv.scan.map shaderFiles).getD [], ∃ spvBytes block,
        fileAfter exampleEnv none (filename f ++ ".spv".toList) = some spvBytes ∧
        headerBlock (filename f) exampleEnv.now spvBytes = some block ∧
        fileAfter exampleEnv none (filename f ++ ".spv.h".toList) = some (toBytes block)) ∧
      (((exampleEnv.scan.map shaderFiles).getD []).map
        (fun f => filename f ++ ".spv.h".toList)).Nodup :=
  one_block_per_header exampleEnv none (by decide) (fun _ => rfl) (by decide)

end drive
